import Mathlib

/-!
Verification of the apk_converter repository (demo2apk): a service that
converts HTML documents / zipped front-end projects into installable
Android packages.

This file shallowly embeds the pure logic that the claims are about:

* `generateAppId` and `prepareHtmlForCordova`
  (packages/core/src/builders/html-builder.ts);
* `needsOfflineify` (packages/core/src/utils/offlineify.ts);
* `createProgressHeartbeat` (packages/core/src/builders/react-builder.ts);
* `getJobStatus`, `getJobPosition`, `removeJob`
  (packages/backend/src/services/queue.ts);
* the status / download / delete route handlers
  (packages/backend/src/routes/status.ts);
* `cleanupTask` (packages/backend/src/services/storage.ts);
* the zip admission appId fallback (packages/backend/src/routes/build.ts);
* the web client poll-store progress update (frontend useBuildStore).

JavaScript strings are embedded as `List Char` (with `String` wrappers at
the API boundary).  The few regular expressions the code uses are embedded
by executable functions; each carries a comment arguing its equivalence
with the regex semantics.  Filesystem trees are embedded as lists of
component paths (`List (List String)`).  All definitions are executable.
-/

namespace Demo2Apk

/-! ## Generic string machinery

`containsSub pat l` embeds JavaScript `l.includes(pat)` (case sensitive):
true iff `pat` occurs as a contiguous substring of `l`.  `countSub pat l`
counts the start positions of occurrences of `pat` in `l`. -/

def containsSub (pat : List Char) : List Char → Bool
  | [] => pat.isEmpty
  | c :: cs => pat.isPrefixOf (c :: cs) || containsSub pat cs

def countSub (pat : List Char) : List Char → Nat
  | [] => 0
  | c :: cs => (if pat.isPrefixOf (c :: cs) then 1 else 0) + countSub pat cs

/-- No occurrence of `pat` straddles the boundary between `a` and `b`
in the concatenation `a ++ b`. -/
def NoStraddle (pat a b : List Char) : Prop :=
  ∀ k, 0 < k → k < pat.length → ¬ (pat.take k <:+ a ∧ pat.drop k <+: b)

/-- JavaScript `String.prototype.trim` on the character list. -/
def jsTrim (l : List Char) : List Char :=
  ((l.dropWhile Char.isWhitespace).reverse.dropWhile Char.isWhitespace).reverse

/-! ## App identifier derivation — `generateAppId` (html-builder.ts 152-177)

The source applies three regex rewrites to the lowercased name and then
fixes up the dot-separated segments:

    .replace(/[^a-z0-9]+/g, '.')   -- runs of non-alphanumerics to one dot
    .replace(/\.+/g, '.')          -- collapse dot runs (already a no-op)
    .replace(/^\.+|\.+$/g, '')     -- strip leading/trailing dots

Replacing each non-alphanumeric character by a dot and then collapsing
adjacent dots computes the same string as the first two rewrites: a run of
non-alphanumerics becomes a run of dots, which collapses to one dot. -/

def isLower09 (c : Char) : Bool :=
  ('a' ≤ c && c ≤ 'z') || ('0' ≤ c && c ≤ '9')

def isLowerAlpha (c : Char) : Bool := 'a' ≤ c && c ≤ 'z'

/-- One dot for every character outside `[a-z0-9]`. -/
def dotify (l : List Char) : List Char :=
  l.map (fun c => if isLower09 c then c else '.')

/-- Collapse each run of adjacent dots to a single dot. -/
def collapseDots : List Char → List Char
  | [] => []
  | [c] => [c]
  | c :: d :: rest =>
    if c = '.' && d = '.' then collapseDots (d :: rest)
    else c :: collapseDots (d :: rest)

/-- Strip leading and trailing dots (`/^\.+|\.+$/g` with empty replacement). -/
def stripDots (l : List Char) : List Char :=
  ((l.dropWhile (· = '.')).reverse.dropWhile (· = '.')).reverse

/-- JavaScript `split('.')`: always at least one (possibly empty) part. -/
def splitDots : List Char → List (List Char)
  | [] => [[]]
  | c :: rest =>
    match splitDots rest with
    | [] => [[]]
    | p :: ps => if c = '.' then [] :: p :: ps else (c :: p) :: ps

/-- `join('.')`. -/
def joinDots : List (List Char) → List Char
  | [] => []
  | [p] => p
  | p :: ps => p ++ '.' :: joinDots ps

/-- The per-segment fixup of `generateAppId`: an empty segment becomes
`app<idx>`, a segment not starting with `[a-z]` is prefixed with `a`. -/
def fixPart (idx : Nat) : List Char → List Char
  | [] => "app".data ++ (Nat.repr idx).data
  | c :: cs => if isLowerAlpha c then c :: cs else 'a' :: c :: cs

/-- `parts.map((part, idx) => ...)` with its running index. -/
def fixParts (idx : Nat) : List (List Char) → List (List Char)
  | [] => []
  | p :: ps => fixPart idx p :: fixParts (idx + 1) ps

def generateAppId (appName : String) : String :=
  let lowered := appName.data.map Char.toLower
  let sanitized := stripDots (collapseDots (dotify lowered))
  let sanitized := if sanitized.isEmpty then "app".data else sanitized
  let parts := splitDots sanitized
  "com.vibecoding." ++ (joinDots (fixParts 0 parts)).asString

/-- Matcher for `^com\.vibecoding\.[a-z][a-z0-9]*(\.[a-z][a-z0-9]*)*$`:
the string starts with the literal prefix and, splitting the remainder on
dots, every part is nonempty, starts with `[a-z]` and continues with
`[a-z0-9]`.  (Splitting on dots is exact: a leading, trailing or double
dot yields an empty part, which the segment check rejects.) -/
def appIdSegOk : List Char → Bool
  | [] => false
  | c :: cs => isLowerAlpha c && cs.all isLower09

def matchesAppIdShape (s : String) : Bool :=
  let pre := "com.vibecoding.".data
  (s.data.take pre.length == pre) && (splitDots (s.data.drop pre.length)).all appIdSegOk

/-! ## HTML patching — `prepareHtmlForCordova` (html-builder.ts 182-207)

The head-insertion regex is `/<head([^>]*)>/i` replaced by
`'<head$1>' + inserted text`.  A regex engine scans left to right; at a
position the match succeeds iff the next five characters are `<head` up to
case and some later `>` exists before any intervening `>` ends the
`[^>]*` group — i.e. iff a `>` occurs at all after the `<head`.
`findHead` performs exactly this scan, returning the prefix before the
match, the captured group (the characters between `<head` and the next
`>`), and the rest after that `>`. -/

/-- Split at the first `'>'`: returns (characters before it, rest after it). -/
def splitAtGt : List Char → Option (List Char × List Char)
  | [] => none
  | c :: cs =>
    if c = '>' then some ([], cs)
    else
      match splitAtGt cs with
      | none => none
      | some (cap, rest) => some (c :: cap, rest)

def findHead : List Char → Option (List Char × List Char × List Char)
  | [] => none
  | c :: cs =>
    if ((c :: cs).take 5).map Char.toLower = "<head".data then
      match splitAtGt ((c :: cs).drop 5) with
      | some (cap, rest) => some ([], cap, rest)
      | none =>
        match findHead cs with
        | none => none
        | some (p, cap, rest) => some (c :: p, cap, rest)
    else
      match findHead cs with
      | none => none
      | some (p, cap, rest) => some (c :: p, cap, rest)

/-- The site condition under which `/<head([^>]*)>/i` matches somewhere in
`l`: a five-character case variant of `<head` occurs and some `>` follows
it. -/
def HeadTagSite (l : List Char) : Prop :=
  ∃ a h b, l = a ++ h ++ b ∧ h.map Char.toLower = "<head".data ∧ '>' ∈ b

/-- `html.replace(/<head([^>]*)>/i, '<head$1>' + ins)`: the matched text is
rewritten with a lowercase `<head`, the captured group and `>` are kept,
and `ins` follows. -/
def addHeadInsert (ins : List Char) (l : List Char) : List Char :=
  match findHead l with
  | none => l
  | some (p, cap, rest) => p ++ "<head".data ++ cap ++ '>' :: (ins ++ rest)

/-- JavaScript `replace` with a plain-string pattern: first occurrence only. -/
def replaceFirst (pat repl : List Char) : List Char → List Char
  | [] => []
  | c :: cs =>
    if pat.isPrefixOf (c :: cs) then repl ++ (c :: cs).drop pat.length
    else c :: replaceFirst pat repl cs

def viewportNeedle : List Char := "viewport".data

def cspNeedle : List Char := "Content-Security-Policy".data

def cordovaNeedle : List Char := "cordova.js".data

def viewportIns : List Char :=
  ("\n    <meta name=\"viewport\" content=\"width=device-width, initial-scale=1.0, maximum-scale=1.0, user-scalable=no\">").data

def cspIns : List Char :=
  ("\n    <meta http-equiv=\"Content-Security-Policy\" content=\"default-src * 'self' 'unsafe-inline' 'unsafe-eval' data: gap: content:\">").data

def bodyClose : List Char := "</body>".data

def cordovaRepl : List Char :=
  ("    <script src=\"cordova.js\"></script>\n</body>").data

/-- `if (!html.includes('viewport')) html = html.replace(/<head([^>]*)>/i, ...)` -/
def patchViewport (l : List Char) : List Char :=
  if containsSub viewportNeedle l then l else addHeadInsert viewportIns l

/-- `if (!html.includes('Content-Security-Policy')) html = html.replace(/<head([^>]*)>/i, ...)` -/
def patchCsp (l : List Char) : List Char :=
  if containsSub cspNeedle l then l else addHeadInsert cspIns l

/-- `if (!html.includes('cordova.js')) html = html.replace('</body>', ...)` -/
def patchCordova (l : List Char) : List Char :=
  if containsSub cordovaNeedle l then l else replaceFirst bodyClose cordovaRepl l

def prepareHtmlForCordova (htmlContent : String) : String :=
  (patchCordova (patchCsp (patchViewport htmlContent.data))).asString

/-! ## Offlineify trigger — `needsOfflineify` (offlineify.ts 31-59)

Every pattern in `CDN_PATTERNS` and `BABEL_SCRIPT_PATTERN` is a `/i`-flagged
regex whose body is a literal (all dots escaped), so each test is a
case-insensitive substring check; the pattern texts are already lowercase,
so testing equals searching the lowercased input. -/

def containsCI (pat : String) (html : List Char) : Bool :=
  containsSub pat.data (html.map Char.toLower)

def cdnPatterns : List String :=
  ["cdn.tailwindcss.com", "unpkg.com", "fonts.googleapis.com",
   "@babel/standalone", "canvas-confetti", "cdnjs.cloudflare.com"]

def needsOfflineify (htmlContent : String) : Bool :=
  cdnPatterns.any (fun p => containsCI p htmlContent.data)
    || containsCI "text/babel" htmlContent.data

/-- Follows the words of claim C5 (not the source): "a well-known CDN
hostname, a Babel-compiled-in-browser script tag (`type="text/babel"`), or
a Google Fonts `@import`".  The hostname-shaped entries of the declared
signature set are the four CDN hostnames; a Google Fonts `@import` is an
`@import` that pulls from `fonts.googleapis.com`. -/
def declaredSignaturesClaimC5 (htmlContent : String) : Bool :=
  (["cdn.tailwindcss.com", "unpkg.com", "fonts.googleapis.com",
    "cdnjs.cloudflare.com"].any (fun p => containsCI p htmlContent.data))
    || containsCI "text/babel" htmlContent.data
    || (containsCI "@import" htmlContent.data
        && containsCI "fonts.googleapis.com" htmlContent.data)

/-- The amended signature list for C5: the four CDN hostnames, a
Babel-in-browser signature (a `text/babel` script type or the
`@babel/standalone` bundle), or the `canvas-confetti` library name. -/
def amendedSignaturesC5 (htmlContent : String) : Bool :=
  (["cdn.tailwindcss.com", "unpkg.com", "fonts.googleapis.com",
    "cdnjs.cloudflare.com"].any (fun p => containsCI p htmlContent.data))
    || (containsCI "text/babel" htmlContent.data
        || containsCI "@babel/standalone" htmlContent.data)
    || containsCI "canvas-confetti" htmlContent.data

/-! ## Queue model (packages/backend/src/services/queue.ts)

Job records live in the queue backend (BullMQ).  `createdAt` is an ISO
timestamp in the source; it is embedded as the epoch-milliseconds integer
the status route extracts from it with `new Date(...).getTime()`. -/

inductive BullState where
  | waiting | active | delayed | prioritized | completed | failed
  | unknown (s : String)
deriving DecidableEq, Repr

structure BuildJobProgress where
  message : String
  percent : Int
deriving DecidableEq, Repr

structure BuildJobResult where
  success : Bool
  apkPath : Option String := none
  error : Option String := none
  duration : Option Int := none
deriving DecidableEq, Repr

structure BuildJobData where
  taskId : String
  buildType : String
  filePath : String
  appName : String
  appId : Option String := none
  iconPath : Option String := none
  outputDir : String
  createdAt : Int
deriving DecidableEq, Repr

structure JobRecord where
  data : BuildJobData
  state : BullState
  progress : Option BuildJobProgress := none
  returnvalue : Option BuildJobResult := none
  failedReason : Option String := none
deriving DecidableEq, Repr

structure QueueStats where
  waiting : Nat
  active : Nat
deriving DecidableEq, Repr

/-- `getJobPosition`: `queue.getWaiting(0, 100)` is an inclusive range in
the queue backend, i.e. up to the first 101 waiting jobs; `findIndex` plus
one, with `0` for "not in the waiting set". -/
def getJobPosition (waitingIds : List String) (taskId : String) : Nat :=
  match (waitingIds.take 101).findIdx? (fun j => j == taskId) with
  | none => 0
  | some i => i + 1

/-- The view `getJobStatus` returns to the routes. -/
structure JobStatusView where
  status : String
  progress : Option BuildJobProgress := none
  result : Option BuildJobResult := none
  error : Option String := none
  createdAt : Option Int := none
  appName : Option String := none
  queuePosition : Option Nat := none
  queueTotal : Option Nat := none
deriving DecidableEq, Repr

def getJobStatus (job : Option JobRecord) (waitingIds : List String)
    (stats : QueueStats) (taskId : String) : JobStatusView :=
  match job with
  | none => { status := "not_found" }
  | some j =>
    match j.state with
    | .completed =>
      { status := "completed", progress := j.progress, result := j.returnvalue,
        createdAt := some j.data.createdAt, appName := some j.data.appName }
    | .failed =>
      { status := "failed", progress := j.progress, error := j.failedReason,
        createdAt := some j.data.createdAt, appName := some j.data.appName }
    | .active =>
      { status := "active", progress := j.progress,
        createdAt := some j.data.createdAt, appName := some j.data.appName }
    | .waiting =>
      let pos := getJobPosition waitingIds taskId
      { status := "pending", createdAt := some j.data.createdAt,
        appName := some j.data.appName,
        queuePosition := some (if pos = 0 then 1 else pos),
        queueTotal := some (stats.waiting + stats.active) }
    | .delayed =>
      let pos := getJobPosition waitingIds taskId
      { status := "pending", createdAt := some j.data.createdAt,
        appName := some j.data.appName,
        queuePosition := some (if pos = 0 then 1 else pos),
        queueTotal := some (stats.waiting + stats.active) }
    | .prioritized =>
      let pos := getJobPosition waitingIds taskId
      { status := "pending", createdAt := some j.data.createdAt,
        appName := some j.data.appName,
        queuePosition := some (if pos = 0 then 1 else pos),
        queueTotal := some (stats.waiting + stats.active) }
    | .unknown _ =>
      { status := "pending", createdAt := some j.data.createdAt,
        appName := some j.data.appName,
        queuePosition := some 1,
        queueTotal := some (stats.waiting + stats.active) }

/-- `removeJob`: refuses when the job is missing or active, otherwise
removes it.  Returns (removed?, remaining job). -/
def removeJob (job : Option JobRecord) : Bool × Option JobRecord :=
  match job with
  | none => (false, none)
  | some j => if j.state = .active then (false, some j) else (true, none)

/-! ## Status route (packages/backend/src/routes/status.ts 24-103) -/

/-- JavaScript truthiness of an optional string (`undefined` and `''` are
falsy). -/
def jsTruthyStr : Option String → Bool
  | none => false
  | some s => match s.data with
    | [] => false
    | _ => true

structure StatusBody where
  taskId : String
  status : String
  fileName : Option String := none
  expiresAt : Option Int := none
  retentionHours : Int
  progress : Option BuildJobProgress := none
  queuePosition : Option Nat := none
  queueTotal : Option Nat := none
  result : Option (Bool × Option Int) := none
  downloadUrl : Option String := none
  apkSize : Option Int := none
  error : Option String := none
deriving DecidableEq, Repr

inductive StatusReply where
  | err (code : Nat) (message : String)
  | ok (body : StatusBody)
deriving DecidableEq, Repr

/-- The GET `/:taskId/status` handler.  `apkSizeOf` stands for
`getApkSize(path).catch(() => 0)` (a total lookup defaulting to 0). -/
def statusHandler (retentionHours : Int) (apkSizeOf : String → Int)
    (taskId : String) (js : JobStatusView) : StatusReply :=
  let expiresAt := js.createdAt.map (fun t => t + retentionHours * 60 * 60 * 1000)
  if js.status = "not_found" then
    .err 404 ("Task " ++ taskId ++ " not found")
  else
    let actualStatus :=
      if js.status = "completed" &&
          (match js.result with | some r => !r.success | none => false) then
        "failed"
      else js.status
    let b : StatusBody :=
      { taskId := taskId, status := actualStatus,
        fileName := if jsTruthyStr js.appName then js.appName else none,
        expiresAt := expiresAt,
        retentionHours := retentionHours,
        progress := js.progress }
    let b :=
      if js.status = "pending" then
        { b with queuePosition := js.queuePosition, queueTotal := js.queueTotal }
      else b
    let b :=
      if js.status = "completed" then
        match js.result with
        | none => b
        | some r =>
          let b := { b with result := some (r.success, r.duration) }
          if r.success && jsTruthyStr r.apkPath then
            { b with
              downloadUrl := some ("/api/build/" ++ taskId ++ "/download"),
              apkSize := some (apkSizeOf (r.apkPath.getD "")) }
          else if jsTruthyStr r.error then
            { b with error := r.error }
          else b
      else b
    let b := if js.status = "failed" then { b with error := js.error } else b
    .ok b

/-! ## Download route (status.ts 109-163) -/

/-- `path.basename` for the POSIX paths the service builds. -/
def basenameChars (p : List Char) : List Char :=
  (p.reverse.takeWhile (fun c => c ≠ '/')).reverse

def isAsciiAlnum (c : Char) : Bool :=
  ('A' ≤ c && c ≤ 'Z') || ('a' ≤ c && c ≤ 'z') || ('0' ≤ c && c ≤ '9')

/-- `filename.match(/^(.+)--[a-zA-Z0-9]+\.apk$/)`, rewriting a match to
`$1.apk`.  The regex forces the name to end in `.apk`; the characters
between the final `--` and `.apk` must be alphanumeric, so the group
`[a-zA-Z0-9]+` is exactly the maximal alphanumeric run ending just before
`.apk`, and the greedy `(.+)` forces `--` to sit immediately before that
run.  Scanning the reversed name: after `.apk`, take the maximal
alphanumeric run; the match succeeds iff that run is nonempty, the two
characters before it are `--` and something nonempty precedes them. -/
def stripTaskIdSuffix (filename : List Char) : List Char :=
  let r := filename.reverse
  if r.take 4 = "kpa.".data then
    let rest := r.drop 4
    let run := rest.takeWhile isAsciiAlnum
    let rest2 := rest.drop run.length
    if !run.isEmpty && rest2.take 2 = ['-', '-'] && !(rest2.drop 2).isEmpty then
      (rest2.drop 2).reverse ++ ".apk".data
    else filename
  else filename

/-- The ASCII fallback of the RFC 5987 dual form:
`filename.replace(/[^\x00-\x7F]/g, '_')`. -/
def asciiFallbackName (l : List Char) : List Char :=
  l.map (fun c => if c.toNat ≤ 0x7F then c else '_')

def uriUnreserved (c : Char) : Bool :=
  ('A' ≤ c && c ≤ 'Z') || ('a' ≤ c && c ≤ 'z') || ('0' ≤ c && c ≤ '9') ||
  c = '-' || c = '_' || c = '.' || c = '!' || c = '~' || c = '*' ||
  c = '\'' || c = '(' || c = ')'

def hexDigitChar (n : Nat) : Char :=
  if n < 10 then Char.ofNat (48 + n) else Char.ofNat (55 + n)

def utf8Bytes (c : Char) : List Nat :=
  let n := c.toNat
  if n < 0x80 then [n]
  else if n < 0x800 then [0xC0 + n / 64, 0x80 + n % 64]
  else if n < 0x10000 then [0xE0 + n / 4096, 0x80 + (n / 64) % 64, 0x80 + n % 64]
  else [0xF0 + n / 262144, 0x80 + (n / 4096) % 64, 0x80 + (n / 64) % 64, 0x80 + n % 64]

def encodeURIComponent (l : List Char) : List Char :=
  l.flatMap (fun c =>
    if uriUnreserved c then [c]
    else (utf8Bytes c).flatMap (fun b => ['%', hexDigitChar (b / 16), hexDigitChar (b % 16)]))

def contentDispositionFor (filename : List Char) : String :=
  ("attachment; filename=\"".data ++ asciiFallbackName filename
    ++ "\"; filename*=UTF-8''".data ++ encodeURIComponent filename).asString

inductive DownloadReply where
  | err (code : Nat) (message : String)
  | ok (contentType : String) (contentDisposition : String) (filePath : String)
deriving DecidableEq, Repr

/-- The GET `/:taskId/download` handler; `fsExists` stands for `apkExists`. -/
def downloadHandler (js : JobStatusView) (fsExists : String → Bool) : DownloadReply :=
  if js.status = "not_found" then .err 404 "Task not found"
  else if js.status ≠ "completed" then .err 400 "Task is not completed yet"
  else
    let okResult :=
      match js.result with
      | none => none
      | some r =>
        if r.success && jsTruthyStr r.apkPath then some (r.apkPath.getD "") else none
    match okResult with
    | none => .err 400 "Build failed, no APK available for download"
    | some apkPath =>
      if !(fsExists apkPath) then
        .err 404 "APK file not found. It may have been cleaned up."
      else
        let filename := stripTaskIdSuffix (basenameChars apkPath.data)
        .ok "application/vnd.android.package-archive"
          (contentDispositionFor filename) apkPath

/-! ## Delete route (status.ts 169-215) and storage cleanup (storage.ts 75-93)

A filesystem is a list of component paths; removing a directory removes
every path it is a prefix of (the directory node included). -/

def removeDirTree (dir : List String) (fs : List (List String)) : List (List String) :=
  fs.filter (fun p => !(dir.isPrefixOf p))

/-- `cleanupTask(taskId, appName, config)`: removes
`<uploadsDir>/<taskId>` and then `<buildsDir>/<appName>`. -/
def cleanupTask (uploadsDir buildsDir : List String) (taskId appName : String)
    (fs : List (List String)) : List (List String) :=
  removeDirTree (buildsDir ++ [appName]) (removeDirTree (uploadsDir ++ [taskId]) fs)

inductive DeleteReply where
  | err (code : Nat) (message : String)
  | ok (message : String)
deriving DecidableEq, Repr

/-- The DELETE `/:taskId` handler: returns the reply, the job remaining in
the queue and the resulting filesystem. -/
def deleteHandler (job : Option JobRecord) (uploadsDir buildsDir : List String)
    (fs : List (List String)) : DeleteReply × Option JobRecord × List (List String) :=
  match job with
  | none => (.err 404 "Task not found", none, fs)
  | some j =>
    if j.state = .active then
      (.err 400 "Cannot cancel a task that is currently building. Please wait for it to complete.",
        some j, fs)
    else
      let (removed, job2) := removeJob (some j)
      if !removed then (.err 500 "Failed to remove task from queue", job2, fs)
      else
        (.ok ("Task " ++ j.data.taskId ++ " has been deleted"), job2,
          cleanupTask uploadsDir buildsDir j.data.taskId j.data.appName fs)

/-! ## Zip admission appId fallback (routes/build.ts, POST /zip)

The form field is read as `String(part.value || '').trim() || undefined`,
and the zip route then applies `appId = appId || 'com.example.reactapp'`.
The HTML route leaves the field undefined and `buildHtmlToApk` defaults it
with `appId = generateAppId(appName)`. -/

def parseFormAppId (field : Option String) : Option String :=
  let s := jsTrim (field.getD "").data
  if s.isEmpty then none else some s.asString

def zipRouteAppId (field : Option String) : String :=
  (parseFormAppId field).getD "com.example.reactapp"

def htmlBuildAppId (field : Option String) (appName : String) : String :=
  (parseFormAppId field).getD (generateAppId appName)

/-! ## Progress heartbeat — `createProgressHeartbeat` (react-builder.ts 230-258)

The wrapper computes `increment = Math.max(1, Math.floor((endPercent -
startPercent) / 10))` and arms a 5-second interval timer; each firing
emits `currentPercent + increment` while `currentPercent < endPercent -
increment`, and `stop()` clears the timer.  `heartbeatTicks s e n` is the
list of percents the heartbeat emits when the timer fires `n` times
before `stop()` — i.e. when the wrapped subcommand runs for `n` whole
5-second intervals. -/

def hbIncrement (startPercent endPercent : Int) : Int :=
  max 1 ((endPercent - startPercent).fdiv 10)

def hbTicks (endPercent inc : Int) : Nat → Int → List Int
  | 0, _ => []
  | n + 1, cur =>
    if cur < endPercent - inc then (cur + inc) :: hbTicks endPercent inc n (cur + inc)
    else hbTicks endPercent inc n cur

def heartbeatTicks (startPercent endPercent : Int) (intervals : Nat) : List Int :=
  hbTicks endPercent (hbIncrement startPercent endPercent) intervals startPercent

/-! ## Client poll store progress update (frontend useBuildStore, active branch)

    let serverProgress = data.progress?.percent || 0
    let nextProgress = Math.max(currentProgress, serverProgress)
    if (nextProgress < 10) nextProgress = 10
-/

def storeNextProgress (current : Int) (serverPercent : Option Int) : Int :=
  let server := serverPercent.getD 0
  let next := max current server
  if next < 10 then 10 else next

/-- Projection: the 200-body of a status reply, if any. -/
def replyBody : StatusReply → Option StatusBody
  | .err _ _ => none
  | .ok b => some b

/-! # Theorems -/

/-! ## Substring machinery -/

theorem containsSub_char_iff (pat l : List Char) :
    containsSub pat l = true ↔ pat <:+: l := by
  induction l with
  | nil => simp [containsSub, List.isEmpty_iff, List.infix_nil]
  | cons c cs ih =>
    rw [containsSub, Bool.or_eq_true, List.isPrefixOf_iff_prefix, ih]
    constructor
    · rintro (h | h)
      · exact h.isInfix
      · exact h.trans (List.suffix_cons c cs).isInfix
    · rintro ⟨s, t, hst⟩
      rcases s with _ | ⟨d, ds⟩
      · exact Or.inl ⟨t, hst⟩
      · right
        refine ⟨ds, t, ?_⟩
        simp only [List.cons_append] at hst
        exact (List.cons.injEq _ _ _ _ ▸ hst : _ ∧ _).2

theorem countSub_pos_iff (pat l : List Char) (hpat : pat ≠ []) :
    0 < countSub pat l ↔ containsSub pat l = true := by
  induction l with
  | nil =>
    simp only [countSub, containsSub]
    constructor
    · omega
    · intro h
      exact absurd (List.isEmpty_iff.mp h) hpat
  | cons c cs ih =>
    rw [countSub, containsSub, Bool.or_eq_true]
    constructor
    · intro h
      by_cases hp : pat.isPrefixOf (c :: cs)
      · exact Or.inl hp
      · rw [if_neg hp] at h
        exact Or.inr (ih.mp (by omega))
    · rintro (h | h)
      · rw [if_pos h]; omega
      · have := ih.mpr h
        omega

theorem countSub_eq_zero_iff (pat l : List Char) (hpat : pat ≠ []) :
    countSub pat l = 0 ↔ containsSub pat l = false := by
  constructor
  · intro h
    cases hcs : containsSub pat l
    · rfl
    · have := (countSub_pos_iff pat l hpat).mpr hcs
      omega
  · intro h
    by_contra hne
    have := (countSub_pos_iff pat l hpat).mp (by omega)
    rw [h] at this
    cases this

theorem countSub_eq_zero_of_lt (pat l : List Char) (h : l.length < pat.length) :
    countSub pat l = 0 := by
  induction l with
  | nil => rfl
  | cons c cs ih =>
    have h1 : ¬ pat.isPrefixOf (c :: cs) = true := by
      intro hp
      have := (List.isPrefixOf_iff_prefix.mp hp).length_le
      simp only [List.length_cons] at this h
      omega
    rw [countSub, if_neg h1, ih (by simp only [List.length_cons] at h; omega)]

theorem prefix_append_iff_left (pat l b : List Char)
    (hns : l.length < pat.length → ¬ (pat.take l.length <:+ l ∧ pat.drop l.length <+: b)) :
    (pat <+: l ++ b ↔ pat <+: l) := by
  constructor
  · intro hp
    by_cases hlen : pat.length ≤ l.length
    · have h1 := List.prefix_iff_eq_take.mp hp
      rw [List.take_append_of_le_length hlen] at h1
      exact h1 ▸ List.take_prefix pat.length l
    · push_neg at hlen
      exfalso
      apply hns hlen
      have hlp : l <+: pat :=
        List.prefix_of_prefix_length_le (List.prefix_append l b) hp (le_of_lt hlen)
      constructor
      · have h2 : l = pat.take l.length := List.prefix_iff_eq_take.mp hlp
        rw [← h2]
      · rcases hp with ⟨t, ht⟩
        refine ⟨t, ?_⟩
        have h3 : (pat ++ t).drop l.length = (l ++ b).drop l.length := by rw [ht]
        rw [List.drop_append_of_le_length (le_of_lt hlen), List.drop_left] at h3
        exact h3
  · intro hp
    exact hp.trans (List.prefix_append l b)

theorem countSub_append (pat : List Char) :
    ∀ a b : List Char, NoStraddle pat a b →
      countSub pat (a ++ b) = countSub pat a + countSub pat b := by
  intro a
  induction a with
  | nil => intro b _; simp [countSub]
  | cons c cs ih =>
    intro b hns
    have hns' : NoStraddle pat cs b := by
      intro k hk hk' hkk
      exact hns k hk hk' ⟨hkk.1.trans (List.suffix_cons c cs), hkk.2⟩
    have hpe : pat.isPrefixOf (c :: (cs ++ b)) = pat.isPrefixOf (c :: cs) := by
      rw [Bool.eq_iff_iff, List.isPrefixOf_iff_prefix, List.isPrefixOf_iff_prefix]
      have := prefix_append_iff_left pat (c :: cs) b
        (fun hlen hk => hns (c :: cs).length (by simp) hlen hk)
      simpa using this
    show (if pat.isPrefixOf (c :: (cs ++ b)) then 1 else 0) + countSub pat (cs ++ b) =
      ((if pat.isPrefixOf (c :: cs) then 1 else 0) + countSub pat cs) + countSub pat b
    rw [hpe, ih b hns']
    omega

theorem countSub_triple (pat p m rest : List Char)
    (h1 : NoStraddle pat p (m ++ rest)) (h2 : NoStraddle pat m rest) :
    countSub pat (p ++ m ++ rest) = countSub pat p + countSub pat m + countSub pat rest := by
  rw [List.append_assoc, countSub_append pat p (m ++ rest) h1,
    countSub_append pat m rest h2]
  omega

theorem noStraddle_of_head_lower {pat a b : List Char} (bh c₀ : Char)
    (hb : b.head? = some bh) (hl : Char.toLower bh = c₀)
    (hchk : ∀ k, k < pat.length → 0 < k → (pat.map Char.toLower)[k]? ≠ some c₀) :
    NoStraddle pat a b := by
  rintro k hk hk' ⟨_, h2⟩
  rcases h2 with ⟨t, ht⟩
  have hne : pat.drop k ≠ [] := by
    intro h
    have := congrArg List.length h
    simp only [List.length_drop, List.length_nil] at this
    omega
  have hhead : b.head? = (pat.drop k).head? := by
    cases hd : pat.drop k with
    | nil => exact absurd hd hne
    | cons x xs => rw [← ht, hd]; rfl
  have h3 : (pat.drop k).head? = pat[k]? := List.head?_drop pat k
  have h4 : pat[k]? = some bh := by rw [← h3, ← hhead, hb]
  have h5 : (pat.map Char.toLower)[k]? = some c₀ := by
    rw [List.getElem?_map, h4, Option.map_some', hl]
  exact hchk k hk' hk h5

theorem noStraddle_of_last_lower {pat a b : List Char} {al c₀ : Char}
    (ha : a.getLast? = some al) (hl : Char.toLower al = c₀)
    (hchk : ∀ k, k < pat.length → 0 < k → (pat.map Char.toLower)[k - 1]? ≠ some c₀) :
    NoStraddle pat a b := by
  rintro k hk hk' ⟨h1, _⟩
  have hkle : k ≤ pat.length := le_of_lt hk'
  have hne : pat.take k ≠ [] := by
    intro h
    have := congrArg List.length h
    simp only [List.length_take, List.length_nil] at this
    omega
  rcases h1 with ⟨t, ht⟩
  have hlast : a.getLast? = (pat.take k).getLast? := by
    rw [← ht]
    exact List.getLast?_append_of_ne_nil t hne
  have h3 : (pat.take k).getLast? = pat[k - 1]? := by
    have hk1 : k = (k - 1) + 1 := by omega
    rw [hk1, List.take_succ]
    cases h4 : pat[k - 1]? with
    | none =>
      exfalso
      rw [List.getElem?_eq_none_iff] at h4
      omega
    | some x =>
      rw [hk1] at h4
      rw [h4]
      simp
  have h6 : pat[k - 1]? = some al := by rw [← h3, ← hlast, ha]
  have h7 : (pat.map Char.toLower)[k - 1]? = some c₀ := by
    rw [List.getElem?_map, h6, Option.map_some', hl]
  exact hchk k hk' hk h7

theorem noStraddle_of_lower_suffix {pat a b : List Char} {w : List Char}
    (ha : a.map Char.toLower = w)
    (hchk : ∀ k, k < pat.length → 0 < k → ¬ ((pat.map Char.toLower).take k <:+ w)) :
    NoStraddle pat a b := by
  rintro k hk hk' ⟨h1, _⟩
  apply hchk k hk' hk
  have h2 := h1.map Char.toLower
  rw [ha] at h2
  rw [List.map_take] at h2
  exact h2

/-! ## Structure of the head-tag scan -/

theorem splitAtGt_some :
    ∀ m cap rest : List Char, splitAtGt m = some (cap, rest) →
      m = cap ++ '>' :: rest ∧ '>' ∉ cap := by
  intro m
  induction m with
  | nil => intro cap rest h; cases h
  | cons c cs ih =>
    intro cap rest h
    rw [splitAtGt] at h
    by_cases hc : c = '>'
    · rw [if_pos hc] at h
      injection h with h
      injection h with h1 h2
      subst h1
      subst h2
      exact ⟨by rw [hc]; rfl, by simp⟩
    · rw [if_neg hc] at h
      cases hs : splitAtGt cs with
      | none => rw [hs] at h; cases h
      | some pr =>
        obtain ⟨cap', rest'⟩ := pr
        rw [hs] at h
        dsimp only at h
        injection h with h
        injection h with h1 h2
        subst h1
        subst h2
        obtain ⟨he, hnm⟩ := ih cap' rest' hs
        constructor
        · rw [List.cons_append, ← he]
        · intro hmem
          rcases List.mem_cons.mp hmem with h2 | h2
          · exact hc h2.symm
          · exact hnm h2

theorem splitAtGt_none : ∀ m : List Char, splitAtGt m = none → '>' ∉ m := by
  intro m
  induction m with
  | nil => intro _ h; cases h
  | cons c cs ih =>
    intro h hmem
    rw [splitAtGt] at h
    by_cases hc : c = '>'
    · rw [if_pos hc] at h; cases h
    · rw [if_neg hc] at h
      rcases List.mem_cons.mp hmem with h2 | h2
      · exact hc h2.symm
      · cases hs : splitAtGt cs with
        | none => exact ih hs h2
        | some pr => rw [hs] at h; obtain ⟨a, b⟩ := pr; cases h

theorem findHead_some_spec :
    ∀ l p cap rest : List Char, findHead l = some (p, cap, rest) →
      ∃ hd, l = p ++ hd ++ cap ++ '>' :: rest ∧ hd.map Char.toLower = "<head".data := by
  intro l
  induction l with
  | nil => intro p cap rest h; cases h
  | cons c cs ih =>
    intro p cap rest h
    rw [findHead] at h
    by_cases hcond : ((c :: cs).take 5).map Char.toLower = "<head".data
    · rw [if_pos hcond] at h
      cases hs : splitAtGt ((c :: cs).drop 5) with
      | some pr =>
        obtain ⟨cap', rest'⟩ := pr
        rw [hs] at h
        dsimp only at h
        injection h with h
        injection h with h1 h
        injection h with h2 h3
        subst h1
        subst h2
        subst h3
        refine ⟨(c :: cs).take 5, ?_, hcond⟩
        have hdr := (splitAtGt_some _ _ _ hs).1
        conv_lhs => rw [← List.take_append_drop 5 (c :: cs)]
        rw [hdr]
        simp
      | none =>
        rw [hs] at h
        cases hf : findHead cs with
        | none => rw [hf] at h; cases h
        | some pr =>
          obtain ⟨p', cap', rest'⟩ := pr
          rw [hf] at h
          dsimp only at h
          injection h with h
          injection h with h1 h
          injection h with h2 h3
          subst h1
          subst h2
          subst h3
          obtain ⟨hd, hl, hmap⟩ := ih p' cap' rest' hf
          exact ⟨hd, by simp [hl], hmap⟩
    · rw [if_neg hcond] at h
      cases hf : findHead cs with
      | none => rw [hf] at h; cases h
      | some pr =>
        obtain ⟨p', cap', rest'⟩ := pr
        rw [hf] at h
        dsimp only at h
        injection h with h
        injection h with h1 h
        injection h with h2 h3
        subst h1
        subst h2
        subst h3
        obtain ⟨hd, hl, hmap⟩ := ih p' cap' rest' hf
        exact ⟨hd, by simp [hl], hmap⟩

theorem headTagSite_nil : ¬ HeadTagSite [] := by
  rintro ⟨a, h, b, habc, hmap, _⟩
  have h1 := congrArg List.length habc
  have h2 := congrArg List.length hmap
  simp at h1 h2
  omega

theorem headTagSite_cons_iff (c : Char) (cs : List Char) :
    HeadTagSite (c :: cs) ↔
      (((c :: cs).take 5).map Char.toLower = "<head".data ∧ '>' ∈ (c :: cs).drop 5) ∨
      HeadTagSite cs := by
  constructor
  · rintro ⟨a, h, b, habc, hmap, hgt⟩
    rcases a with _ | ⟨a0, as⟩
    · left
      have hlen : h.length = 5 := by
        have := congrArg List.length hmap
        simpa using this
      simp only [List.nil_append] at habc
      have hh : (c :: cs).take 5 = h := by
        rw [habc, List.take_append_of_le_length (by omega), ← hlen, List.take_length]
      have hb : (c :: cs).drop 5 = b := by
        rw [habc, ← hlen, List.drop_left]
      exact ⟨hh ▸ hmap, hb ▸ hgt⟩
    · right
      refine ⟨as, h, b, ?_, hmap, hgt⟩
      simp only [List.cons_append] at habc
      injection habc with _ h2
  · rintro (⟨hmap, hgt⟩ | ⟨a, h, b, habc, hmap, hgt⟩)
    · exact ⟨[], (c :: cs).take 5, (c :: cs).drop 5,
        by simp [List.take_append_drop], hmap, hgt⟩
    · exact ⟨c :: a, h, b, by rw [habc]; rfl, hmap, hgt⟩

theorem headTagSite_of_findHead_some (l p cap rest : List Char)
    (h : findHead l = some (p, cap, rest)) : HeadTagSite l := by
  obtain ⟨hd, hl, hmap⟩ := findHead_some_spec l p cap rest h
  exact ⟨p, hd, cap ++ '>' :: rest, by rw [hl]; simp, hmap, by simp⟩

theorem findHead_none_iff : ∀ l : List Char, findHead l = none ↔ ¬ HeadTagSite l := by
  intro l
  induction l with
  | nil => simp [findHead, headTagSite_nil]
  | cons c cs ih =>
    rw [findHead, headTagSite_cons_iff]
    by_cases hcond : ((c :: cs).take 5).map Char.toLower = "<head".data
    · rw [if_pos hcond]
      cases hs : splitAtGt ((c :: cs).drop 5) with
      | some pr =>
        obtain ⟨cap', rest'⟩ := pr
        dsimp only
        constructor
        · intro h; cases h
        · intro h
          exfalso
          apply h
          left
          refine ⟨hcond, ?_⟩
          rw [(splitAtGt_some _ _ _ hs).1]
          simp
      | none =>
        have hngt : '>' ∉ (c :: cs).drop 5 := splitAtGt_none _ hs
        dsimp only
        cases hf : findHead cs with
        | none =>
          simp only [true_iff]
          rintro (⟨_, hgt⟩ | hsite)
          · exact hngt hgt
          · exact (ih.mp hf) hsite
        | some pr =>
          obtain ⟨p', cap', rest'⟩ := pr
          dsimp only
          constructor
          · intro h; cases h
          · intro h
            exact absurd (Or.inr (headTagSite_of_findHead_some cs p' cap' rest' hf)) h
    · rw [if_neg hcond]
      cases hf : findHead cs with
      | none =>
        simp only [true_iff]
        rintro (⟨hmap, _⟩ | hsite)
        · exact hcond hmap
        · exact (ih.mp hf) hsite
      | some pr =>
        obtain ⟨p', cap', rest'⟩ := pr
        dsimp only
        constructor
        · intro h; cases h
        · intro h
          exact absurd (Or.inr (headTagSite_of_findHead_some cs p' cap' rest' hf)) h

/-! ## Counting occurrences across the patch operations -/

theorem addHeadInsert_of_findHead_none (ins x : List Char) (h : findHead x = none) :
    addHeadInsert ins x = x := by
  rw [addHeadInsert, h]

theorem countSub_around_mid (pat mid p rest : List Char)
    (hmh : ∃ mh c₁, mid.head? = some mh ∧ Char.toLower mh = c₁ ∧
      (∀ k, k < pat.length → 0 < k → (pat.map Char.toLower)[k]? ≠ some c₁))
    (hml : ∃ ml c₂, mid.getLast? = some ml ∧ Char.toLower ml = c₂ ∧
      (∀ k, k < pat.length → 0 < k → (pat.map Char.toLower)[k - 1]? ≠ some c₂)) :
    countSub pat (p ++ mid ++ rest) =
      countSub pat p + countSub pat mid + countSub pat rest := by
  obtain ⟨mh, c₁, hh, hlow1, hchk1⟩ := hmh
  obtain ⟨ml, c₂, hl, hlow2, hchk2⟩ := hml
  apply countSub_triple
  · refine noStraddle_of_head_lower mh _ ?_ hlow1 hchk1
    cases mid with
    | nil => cases hh
    | cons m ms => rw [← hh]; rfl
  · exact noStraddle_of_last_lower hl hlow2 hchk2

theorem countSub_addHeadInsert (pat ins x p cap rest : List Char)
    (hf : findHead x = some (p, cap, rest))
    (hlen : 5 < pat.length)
    (hchkHead : ∀ k, k < pat.length → 0 < k → (pat.map Char.toLower)[k]? ≠ some '<')
    (hchkTake : ∀ k, k < pat.length → 0 < k →
      ¬ ((pat.map Char.toLower).take k <:+ "<head".data))
    (hchkGt : ∀ k, k < pat.length → 0 < k → (pat.map Char.toLower)[k - 1]? ≠ some '>')
    (hinsLast : ins.getLast? = some '>') :
    countSub pat (addHeadInsert ins x) = countSub pat x + countSub pat ins := by
  obtain ⟨hd, hx, hmap⟩ := findHead_some_spec x p cap rest hf
  have hdlen : hd.length = 5 := by
    have := congrArg List.length hmap
    simpa using this
  rcases hd with _ | ⟨h0, htl⟩
  · cases hdlen
  have h0low : Char.toLower h0 = '<' := by
    injection hmap
  have hgtlow : Char.toLower '>' = '>' := by decide
  have hltlow : Char.toLower '<' = '<' := by decide
  have ns2 : NoStraddle pat (h0 :: htl) ((cap ++ ['>']) ++ rest) :=
    noStraddle_of_lower_suffix hmap hchkTake
  have ns2' : NoStraddle pat (h0 :: htl) ((cap ++ ['>']) ++ (ins ++ rest)) :=
    noStraddle_of_lower_suffix hmap hchkTake
  have ns2'' : ∀ z, NoStraddle pat "<head".data z :=
    fun z => noStraddle_of_lower_suffix (by decide) hchkTake
  have ns3 : ∀ z, NoStraddle pat (cap ++ ['>']) z :=
    fun z => noStraddle_of_last_lower (List.getLast?_concat _) hgtlow hchkGt
  have ns4 : NoStraddle pat ins rest :=
    noStraddle_of_last_lower hinsLast hgtlow hchkGt
  have ns1 : ∀ z, NoStraddle pat p ((h0 :: htl) ++ z) :=
    fun z => noStraddle_of_head_lower h0 _ rfl h0low hchkHead
  have ns1' : ∀ z, NoStraddle pat p ("<head".data ++ z) :=
    fun z => noStraddle_of_head_lower '<' _ rfl hltlow hchkHead
  have hz1 : countSub pat (h0 :: htl) = 0 :=
    countSub_eq_zero_of_lt pat _ (by rw [hdlen]; omega)
  have hz2 : countSub pat "<head".data = 0 :=
    countSub_eq_zero_of_lt pat _ (by simp; omega)
  have e1 : x = p ++ ((h0 :: htl) ++ ((cap ++ ['>']) ++ rest)) := by
    rw [hx]; simp
  have e2 : addHeadInsert ins x =
      p ++ ("<head".data ++ ((cap ++ ['>']) ++ (ins ++ rest))) := by
    rw [addHeadInsert, hf]; simp
  have c1 : countSub pat x =
      countSub pat p + (0 + (countSub pat (cap ++ ['>']) + countSub pat rest)) := by
    rw [e1, countSub_append pat p _ (ns1 _), countSub_append pat _ _ ns2,
      countSub_append pat _ _ (ns3 _), hz1]
  have c2 : countSub pat (addHeadInsert ins x) =
      countSub pat p +
        (0 + (countSub pat (cap ++ ['>']) + (countSub pat ins + countSub pat rest))) := by
    rw [e2, countSub_append pat p _ (ns1' _), countSub_append pat _ _ (ns2'' _),
      countSub_append pat _ _ (ns3 _), countSub_append pat ins rest ns4, hz2]
  omega

theorem replaceFirst_of_not_contains (pat repl : List Char) :
    ∀ x, containsSub pat x = false → replaceFirst pat repl x = x := by
  intro x
  induction x with
  | nil => intro _; rfl
  | cons c cs ih =>
    intro h
    rw [containsSub, Bool.or_eq_false_iff] at h
    rw [replaceFirst, if_neg (by rw [h.1]; exact Bool.false_ne_true), ih h.2]

theorem replaceFirst_spec (pat repl : List Char) (hpat : pat ≠ []) :
    ∀ x, containsSub pat x = true →
      ∃ p rest, x = p ++ pat ++ rest ∧ replaceFirst pat repl x = p ++ repl ++ rest := by
  intro x
  induction x with
  | nil =>
    intro h
    rw [containsSub] at h
    exact absurd (List.isEmpty_iff.mp h) hpat
  | cons c cs ih =>
    intro h
    by_cases hp : pat.isPrefixOf (c :: cs)
    · refine ⟨[], (c :: cs).drop pat.length, ?_, ?_⟩
      · have h2 := List.prefix_iff_eq_take.mp (List.isPrefixOf_iff_prefix.mp hp)
        conv_lhs => rw [← List.take_append_drop pat.length (c :: cs)]
        rw [← h2]
        simp
      · rw [replaceFirst, if_pos hp]
        simp
    · rw [containsSub, Bool.or_eq_true] at h
      rcases h with h | h
      · exact absurd h hp
      · obtain ⟨p, rest, h1, h2⟩ := ih h
        exact ⟨c :: p, rest, by simp [h1], by rw [replaceFirst, if_neg hp, h2]; simp⟩

/-- Replacing the first `</body>` by the cordova script block neither
creates nor needs a `<head...>` match site: the replacement text contains
no case variant of `<head`, none straddles its edges, and both the old and
the new middle contain a `>`, so occurrences in the prefix keep their
following `>`. -/
theorem headTagSite_replaceFirst_body (p rest : List Char)
    (hno : ¬ HeadTagSite (p ++ bodyClose ++ rest)) :
    ¬ HeadTagSite (p ++ cordovaRepl ++ rest) := by
  rintro ⟨a, h, b, habc, hmap, hgt⟩
  have hlen5 : h.length = 5 := by
    have := congrArg List.length hmap
    simpa using this
  have hBgt : '>' ∈ bodyClose := by decide
  have heq : p ++ (cordovaRepl ++ rest) = a ++ (h ++ b) := by
    simpa using habc
  rcases List.append_eq_append_iff.mp heq with ⟨t, hat, hR⟩ | ⟨t, hpt, hhb⟩
  · -- the occurrence starts at or after the end of `p`
    rcases List.append_eq_append_iff.mp hR with ⟨u, htu, hrest⟩ | ⟨u, hRu, hub⟩
    · -- entirely inside `rest`
      apply hno
      exact ⟨p ++ bodyClose ++ u, h, b, by rw [hrest]; simp, hmap, hgt⟩
    · rcases List.append_eq_append_iff.mp hub with ⟨v, huv, hbv⟩ | ⟨v, hhv, hrestv⟩
      · -- entirely inside the replacement text
        have hinf : h <:+: cordovaRepl := ⟨t, v, by rw [hRu, huv]; simp⟩
        have hinf2 := hinf.map Char.toLower
        rw [hmap] at hinf2
        have hcc := (containsSub_char_iff "<head".data
          (cordovaRepl.map Char.toLower)).mpr hinf2
        rw [(by decide : containsSub "<head".data (cordovaRepl.map Char.toLower) = false)]
          at hcc
        cases hcc
      · rcases u with _ | ⟨u0, us⟩
        · -- the occurrence starts exactly where `rest` starts
          apply hno
          refine ⟨p ++ bodyClose, h, b, ?_, hmap, hgt⟩
          simp only [List.nil_append] at hhv
          rw [hrestv, ← hhv]
          simp
        · rcases v with _ | ⟨v0, vs⟩
          · -- a suffix of the replacement text equal to the whole window
            have hinf : h <:+: cordovaRepl := ⟨t, [], by rw [hRu]; simp [hhv]⟩
            have hinf2 := hinf.map Char.toLower
            rw [hmap] at hinf2
            have hcc := (containsSub_char_iff "<head".data
              (cordovaRepl.map Char.toLower)).mpr hinf2
            rw [(by decide : containsSub "<head".data (cordovaRepl.map Char.toLower) = false)]
              at hcc
            cases hcc
          · -- the window straddles the replacement/rest boundary
            have hul : (u0 :: us).length < 5 := by
              have h3 := congrArg List.length hhv
              rw [hlen5, List.length_append] at h3
              simp only [List.length_cons] at h3 ⊢
              omega
            have humap : (u0 :: us).map Char.toLower =
                "<head".data.take (u0 :: us).length := by
              have h1 : (u0 :: us).map Char.toLower <+: "<head".data := by
                refine ⟨(v0 :: vs).map Char.toLower, ?_⟩
                rw [← List.map_append, ← hhv, hmap]
              have h2 := List.prefix_iff_eq_take.mp h1
              rw [List.length_map] at h2
              exact h2
            have hsuf : (u0 :: us).map Char.toLower <:+ cordovaRepl.map Char.toLower := by
              refine ⟨t.map Char.toLower, ?_⟩
              rw [← List.map_append, ← hRu]
            rw [humap] at hsuf
            exact (by decide : ∀ k, k < 5 → 0 < k →
                ¬ ("<head".data.take k <:+ cordovaRepl.map Char.toLower))
              (u0 :: us).length hul (by simp) hsuf
  · -- the occurrence starts inside `p`
    rcases List.append_eq_append_iff.mp hhb with ⟨u, htu, hbu⟩ | ⟨u, hhu, hRu⟩
    · -- the window lies entirely inside `p`
      apply hno
      refine ⟨a, h, u ++ (bodyClose ++ rest), ?_, hmap, ?_⟩
      · rw [hpt, htu]
        simp
      · simp [hBgt]
    · rcases u with _ | ⟨u0, us⟩
      · -- the window ends exactly where `p` ends
        apply hno
        simp only [List.append_nil] at hhu
        refine ⟨a, h, bodyClose ++ rest, ?_, hmap, by simp [hBgt]⟩
        rw [hpt, hhu]
        simp
      · -- the window straddles the p/replacement boundary
        have hu0 : u0 = ' ' := by
          have h1 : (cordovaRepl ++ rest).head? = some ' ' := rfl
          rw [hRu] at h1
          injection h1
        have hmem : u0 ∈ h := by
          rw [hhu]
          exact List.mem_append_right t (List.mem_cons_self u0 us)
        have hmem2 : Char.toLower u0 ∈ "<head".data := by
          rw [← hmap]
          exact List.mem_map_of_mem Char.toLower hmem
        rw [hu0] at hmem2
        exact absurd hmem2 (by decide)

/-! ## Patch-stage behaviour -/

theorem countSub_headPatch (pat needle ins x : List Char)
    (hlen : 5 < pat.length)
    (hchkHead : ∀ k, k < pat.length → 0 < k → (pat.map Char.toLower)[k]? ≠ some '<')
    (hchkTake : ∀ k, k < pat.length → 0 < k →
      ¬ ((pat.map Char.toLower).take k <:+ "<head".data))
    (hchkGt : ∀ k, k < pat.length → 0 < k → (pat.map Char.toLower)[k - 1]? ≠ some '>')
    (hinsLast : ins.getLast? = some '>') :
    countSub pat (if containsSub needle x then x else addHeadInsert ins x) =
      countSub pat x +
        (if containsSub needle x = false ∧ (findHead x).isSome = true then
          countSub pat ins else 0) := by
  by_cases hc : containsSub needle x = true
  · rw [if_pos hc, if_neg (by simp [hc])]
    omega
  · have hc' : containsSub needle x = false := by
      cases h2 : containsSub needle x
      · rfl
      · exact absurd h2 hc
    rw [if_neg hc]
    cases hf : findHead x with
    | none =>
      rw [addHeadInsert_of_findHead_none _ _ hf, if_neg (by simp [hf])]
      omega
    | some pcr =>
      obtain ⟨p, cap, rest⟩ := pcr
      rw [countSub_addHeadInsert pat ins x p cap rest hf hlen hchkHead hchkTake
        hchkGt hinsLast, if_pos ⟨hc', rfl⟩]

theorem countSub_patchViewport (pat x : List Char)
    (hlen : 5 < pat.length)
    (hchkHead : ∀ k, k < pat.length → 0 < k → (pat.map Char.toLower)[k]? ≠ some '<')
    (hchkTake : ∀ k, k < pat.length → 0 < k →
      ¬ ((pat.map Char.toLower).take k <:+ "<head".data))
    (hchkGt : ∀ k, k < pat.length → 0 < k → (pat.map Char.toLower)[k - 1]? ≠ some '>') :
    countSub pat (patchViewport x) =
      countSub pat x +
        (if containsSub viewportNeedle x = false ∧ (findHead x).isSome = true then
          countSub pat viewportIns else 0) :=
  countSub_headPatch pat viewportNeedle viewportIns x hlen hchkHead hchkTake hchkGt
    (by decide)

theorem countSub_patchCsp (pat x : List Char)
    (hlen : 5 < pat.length)
    (hchkHead : ∀ k, k < pat.length → 0 < k → (pat.map Char.toLower)[k]? ≠ some '<')
    (hchkTake : ∀ k, k < pat.length → 0 < k →
      ¬ ((pat.map Char.toLower).take k <:+ "<head".data))
    (hchkGt : ∀ k, k < pat.length → 0 < k → (pat.map Char.toLower)[k - 1]? ≠ some '>') :
    countSub pat (patchCsp x) =
      countSub pat x +
        (if containsSub cspNeedle x = false ∧ (findHead x).isSome = true then
          countSub pat cspIns else 0) :=
  countSub_headPatch pat cspNeedle cspIns x hlen hchkHead hchkTake hchkGt (by decide)

theorem countSub_patchCordova (pat x : List Char)
    (hlen7 : 7 < pat.length)
    (hchkHead : ∀ k, k < pat.length → 0 < k → (pat.map Char.toLower)[k]? ≠ some '<')
    (hchkSp : ∀ k, k < pat.length → 0 < k → (pat.map Char.toLower)[k]? ≠ some ' ')
    (hchkGt : ∀ k, k < pat.length → 0 < k → (pat.map Char.toLower)[k - 1]? ≠ some '>') :
    countSub pat (patchCordova x) =
      countSub pat x +
        (if containsSub cordovaNeedle x = false ∧ containsSub bodyClose x = true then
          countSub pat cordovaRepl else 0) := by
  unfold patchCordova
  by_cases hc : containsSub cordovaNeedle x = true
  · rw [if_pos hc, if_neg (by simp [hc])]
    omega
  · have hc' : containsSub cordovaNeedle x = false := by
      cases h2 : containsSub cordovaNeedle x
      · rfl
      · exact absurd h2 hc
    rw [if_neg hc]
    by_cases hb : containsSub bodyClose x = true
    · obtain ⟨p, rest, hx, hres⟩ := replaceFirst_spec bodyClose cordovaRepl (by decide) x hb
      rw [hres, if_pos ⟨hc', hb⟩]
      have e1 : countSub pat (p ++ cordovaRepl ++ rest) =
          countSub pat p + countSub pat cordovaRepl + countSub pat rest :=
        countSub_around_mid pat cordovaRepl p rest
          ⟨' ', ' ', rfl, by decide, hchkSp⟩ ⟨'>', '>', by decide, by decide, hchkGt⟩
      have e2 : countSub pat x =
          countSub pat p + countSub pat bodyClose + countSub pat rest := by
        rw [hx]
        exact countSub_around_mid pat bodyClose p rest
          ⟨'<', '<', rfl, by decide, hchkHead⟩ ⟨'>', '>', by decide, by decide, hchkGt⟩
      have e3 : countSub pat bodyClose = 0 :=
        countSub_eq_zero_of_lt pat bodyClose
          (by rw [(by decide : bodyClose.length = 7)]; omega)
      omega
    · have hb' : containsSub bodyClose x = false := by
        cases h2 : containsSub bodyClose x
        · rfl
        · exact absurd h2 hb
      rw [replaceFirst_of_not_contains _ _ x hb', if_neg (by simp [hb'])]
      omega

theorem patchHead_id_of_none (needle ins x : List Char) (h : findHead x = none) :
    (if containsSub needle x then x else addHeadInsert ins x) = x := by
  split
  · rfl
  · exact addHeadInsert_of_findHead_none ins x h

theorem findHead_patchCordova_none (x : List Char) (h : findHead x = none) :
    findHead (patchCordova x) = none := by
  unfold patchCordova
  split
  · exact h
  · by_cases hb : containsSub bodyClose x = true
    · obtain ⟨p, rest, hx, hres⟩ := replaceFirst_spec bodyClose cordovaRepl (by decide) x hb
      rw [hres, findHead_none_iff]
      apply headTagSite_replaceFirst_body
      rw [← hx]
      exact (findHead_none_iff x).mp h
    · rw [replaceFirst_of_not_contains _ _ x (by
        cases h2 : containsSub bodyClose x
        · rfl
        · exact absurd h2 hb)]
      exact h

theorem findHead_isSome_headPatch (needle ins x : List Char)
    (h : (findHead x).isSome = true) :
    (findHead (if containsSub needle x then x else addHeadInsert ins x)).isSome = true := by
  split
  · exact h
  · cases hf : findHead x with
    | none => rw [hf] at h; cases h
    | some pcr =>
      obtain ⟨p, cap, rest⟩ := pcr
      rw [addHeadInsert, hf]
      cases hfh : findHead (p ++ "<head".data ++ cap ++ '>' :: (ins ++ rest)) with
      | some _ => rfl
      | none =>
        exfalso
        apply (findHead_none_iff _).mp hfh
        exact ⟨p, "<head".data, cap ++ '>' :: (ins ++ rest), by simp, by decide, by simp⟩

/-! ## Marker-pattern boundary checks (all four markers are plain words whose
inner positions carry no `<`, no space and no `>`, so occurrences never
straddle an inserted fragment) -/

theorem vp_ne : viewportNeedle ≠ [] := by decide

theorem csp_ne : cspNeedle ≠ [] := by decide

theorem cdv_ne : cordovaNeedle ≠ [] := by decide

theorem bc_ne : bodyClose ≠ [] := by decide

theorem chk_vp_len : 5 < viewportNeedle.length := by decide

theorem chk_vp_head : ∀ k, k < viewportNeedle.length → 0 < k →
    (viewportNeedle.map Char.toLower)[k]? ≠ some '<' := by decide

theorem chk_vp_take : ∀ k, k < viewportNeedle.length → 0 < k →
    ¬ ((viewportNeedle.map Char.toLower).take k <:+ "<head".data) := by decide

theorem chk_vp_gt : ∀ k, k < viewportNeedle.length → 0 < k →
    (viewportNeedle.map Char.toLower)[k - 1]? ≠ some '>' := by decide

theorem chk_vp_sp : ∀ k, k < viewportNeedle.length → 0 < k →
    (viewportNeedle.map Char.toLower)[k]? ≠ some ' ' := by decide

theorem chk_csp_len : 5 < cspNeedle.length := by decide

theorem chk_csp_head : ∀ k, k < cspNeedle.length → 0 < k →
    (cspNeedle.map Char.toLower)[k]? ≠ some '<' := by decide

theorem chk_csp_take : ∀ k, k < cspNeedle.length → 0 < k →
    ¬ ((cspNeedle.map Char.toLower).take k <:+ "<head".data) := by decide

theorem chk_csp_gt : ∀ k, k < cspNeedle.length → 0 < k →
    (cspNeedle.map Char.toLower)[k - 1]? ≠ some '>' := by decide

theorem chk_csp_sp : ∀ k, k < cspNeedle.length → 0 < k →
    (cspNeedle.map Char.toLower)[k]? ≠ some ' ' := by decide

theorem chk_cdv_len : 5 < cordovaNeedle.length := by decide

theorem chk_cdv_head : ∀ k, k < cordovaNeedle.length → 0 < k →
    (cordovaNeedle.map Char.toLower)[k]? ≠ some '<' := by decide

theorem chk_cdv_take : ∀ k, k < cordovaNeedle.length → 0 < k →
    ¬ ((cordovaNeedle.map Char.toLower).take k <:+ "<head".data) := by decide

theorem chk_cdv_gt : ∀ k, k < cordovaNeedle.length → 0 < k →
    (cordovaNeedle.map Char.toLower)[k - 1]? ≠ some '>' := by decide

theorem chk_cdv_sp : ∀ k, k < cordovaNeedle.length → 0 < k →
    (cordovaNeedle.map Char.toLower)[k]? ≠ some ' ' := by decide

theorem chk_bc_len : 5 < bodyClose.length := by decide

theorem chk_bc_head : ∀ k, k < bodyClose.length → 0 < k →
    (bodyClose.map Char.toLower)[k]? ≠ some '<' := by decide

theorem chk_bc_take : ∀ k, k < bodyClose.length → 0 < k →
    ¬ ((bodyClose.map Char.toLower).take k <:+ "<head".data) := by decide

theorem chk_bc_gt : ∀ k, k < bodyClose.length → 0 < k →
    (bodyClose.map Char.toLower)[k - 1]? ≠ some '>' := by decide

set_option maxRecDepth 8192

theorem cnt_vp_vpIns : countSub viewportNeedle viewportIns = 1 := by decide

theorem cnt_csp_vpIns : countSub cspNeedle viewportIns = 0 := by decide

theorem cnt_cdv_vpIns : countSub cordovaNeedle viewportIns = 0 := by decide

theorem cnt_bc_vpIns : countSub bodyClose viewportIns = 0 := by decide

theorem cnt_vp_cspIns : countSub viewportNeedle cspIns = 0 := by decide

theorem cnt_csp_cspIns : countSub cspNeedle cspIns = 1 := by decide

theorem cnt_cdv_cspIns : countSub cordovaNeedle cspIns = 0 := by decide

theorem cnt_bc_cspIns : countSub bodyClose cspIns = 0 := by decide

theorem cnt_vp_cr : countSub viewportNeedle cordovaRepl = 0 := by decide

theorem cnt_csp_cr : countSub cspNeedle cordovaRepl = 0 := by decide

theorem cnt_cdv_cr : countSub cordovaNeedle cordovaRepl = 1 := by decide

/-! ## Per-stage convenience lemmas -/

theorem patchViewport_skip (z : List Char) (h : containsSub viewportNeedle z = true) :
    patchViewport z = z := by
  unfold patchViewport
  rw [if_pos h]

theorem patchCsp_skip (z : List Char) (h : containsSub cspNeedle z = true) :
    patchCsp z = z := by
  unfold patchCsp
  rw [if_pos h]

theorem patchCordova_skip (z : List Char) (h : containsSub cordovaNeedle z = true) :
    patchCordova z = z := by
  unfold patchCordova
  rw [if_pos h]

theorem patchViewport_id_of_none (z : List Char) (h : findHead z = none) :
    patchViewport z = z :=
  patchHead_id_of_none viewportNeedle viewportIns z h

theorem patchCsp_id_of_none (z : List Char) (h : findHead z = none) :
    patchCsp z = z :=
  patchHead_id_of_none cspNeedle cspIns z h

theorem countSub_patchViewport_inert (pat x : List Char)
    (hlen : 5 < pat.length)
    (hH : ∀ k, k < pat.length → 0 < k → (pat.map Char.toLower)[k]? ≠ some '<')
    (hT : ∀ k, k < pat.length → 0 < k →
      ¬ ((pat.map Char.toLower).take k <:+ "<head".data))
    (hG : ∀ k, k < pat.length → 0 < k → (pat.map Char.toLower)[k - 1]? ≠ some '>')
    (h0 : countSub pat viewportIns = 0) :
    countSub pat (patchViewport x) = countSub pat x := by
  rw [countSub_patchViewport pat x hlen hH hT hG, h0, ite_self, Nat.add_zero]

theorem countSub_patchCsp_inert (pat x : List Char)
    (hlen : 5 < pat.length)
    (hH : ∀ k, k < pat.length → 0 < k → (pat.map Char.toLower)[k]? ≠ some '<')
    (hT : ∀ k, k < pat.length → 0 < k →
      ¬ ((pat.map Char.toLower).take k <:+ "<head".data))
    (hG : ∀ k, k < pat.length → 0 < k → (pat.map Char.toLower)[k - 1]? ≠ some '>')
    (h0 : countSub pat cspIns = 0) :
    countSub pat (patchCsp x) = countSub pat x := by
  rw [countSub_patchCsp pat x hlen hH hT hG, h0, ite_self, Nat.add_zero]

theorem countSub_patchCordova_inert (pat x : List Char)
    (hlen7 : 7 < pat.length)
    (hH : ∀ k, k < pat.length → 0 < k → (pat.map Char.toLower)[k]? ≠ some '<')
    (hS : ∀ k, k < pat.length → 0 < k → (pat.map Char.toLower)[k]? ≠ some ' ')
    (hG : ∀ k, k < pat.length → 0 < k → (pat.map Char.toLower)[k - 1]? ≠ some '>')
    (h0 : countSub pat cordovaRepl = 0) :
    countSub pat (patchCordova x) = countSub pat x := by
  rw [countSub_patchCordova pat x hlen7 hH hS hG, h0, ite_self, Nat.add_zero]

/-! ## Idempotence of the three-stage patch chain -/

theorem patchChain_idempotent (x : List Char) :
    patchCordova (patchCsp (patchViewport (patchCordova (patchCsp (patchViewport x))))) =
      patchCordova (patchCsp (patchViewport x)) := by
  set x1 := patchViewport x with hx1
  set x2 := patchCsp x1 with hx2
  set y := patchCordova x2 with hy
  have hA : patchViewport y = y := by
    by_cases hc : containsSub viewportNeedle x = true
    · have h0 : 0 < countSub viewportNeedle x := (countSub_pos_iff _ _ vp_ne).mpr hc
      have e1 : countSub viewportNeedle x ≤ countSub viewportNeedle x1 := by
        rw [hx1, countSub_patchViewport _ _ chk_vp_len chk_vp_head chk_vp_take chk_vp_gt]
        exact Nat.le_add_right _ _
      have e2 : countSub viewportNeedle x2 = countSub viewportNeedle x1 := by
        rw [hx2]
        exact countSub_patchCsp_inert _ _ chk_vp_len chk_vp_head chk_vp_take chk_vp_gt
          cnt_vp_cspIns
      have e3 : countSub viewportNeedle y = countSub viewportNeedle x2 := by
        rw [hy]
        exact countSub_patchCordova_inert _ _ (by decide) chk_vp_head chk_vp_sp chk_vp_gt
          cnt_vp_cr
      exact patchViewport_skip y ((countSub_pos_iff _ _ vp_ne).mp (by omega))
    · have hc' : containsSub viewportNeedle x = false := by
        cases h2 : containsSub viewportNeedle x
        · rfl
        · exact absurd h2 hc
      cases hf : findHead x with
      | none =>
        have e1 : x1 = x := by rw [hx1]; exact patchViewport_id_of_none x hf
        have e2 : x2 = x := by rw [hx2, e1]; exact patchCsp_id_of_none x hf
        have hfy : findHead y = none := by
          rw [hy, e2]; exact findHead_patchCordova_none x hf
        exact patchViewport_id_of_none y hfy
      | some pcr =>
        obtain ⟨p, cap, rest⟩ := pcr
        have hz : countSub viewportNeedle x = 0 :=
          (countSub_eq_zero_iff _ _ vp_ne).mpr hc'
        have e1 : countSub viewportNeedle x1 = 1 := by
          rw [hx1, countSub_patchViewport _ _ chk_vp_len chk_vp_head chk_vp_take chk_vp_gt,
            if_pos ⟨hc', by rw [hf]; rfl⟩, hz, cnt_vp_vpIns]
        have e2 : countSub viewportNeedle x2 = countSub viewportNeedle x1 := by
          rw [hx2]
          exact countSub_patchCsp_inert _ _ chk_vp_len chk_vp_head chk_vp_take chk_vp_gt
            cnt_vp_cspIns
        have e3 : countSub viewportNeedle y = countSub viewportNeedle x2 := by
          rw [hy]
          exact countSub_patchCordova_inert _ _ (by decide) chk_vp_head chk_vp_sp chk_vp_gt
            cnt_vp_cr
        exact patchViewport_skip y ((countSub_pos_iff _ _ vp_ne).mp (by omega))
  have hB : patchCsp y = y := by
    by_cases hc : containsSub cspNeedle x1 = true
    · have h0 : 0 < countSub cspNeedle x1 := (countSub_pos_iff _ _ csp_ne).mpr hc
      have e2 : countSub cspNeedle x1 ≤ countSub cspNeedle x2 := by
        rw [hx2, countSub_patchCsp _ _ chk_csp_len chk_csp_head chk_csp_take chk_csp_gt]
        exact Nat.le_add_right _ _
      have e3 : countSub cspNeedle y = countSub cspNeedle x2 := by
        rw [hy]
        exact countSub_patchCordova_inert _ _ (by decide) chk_csp_head chk_csp_sp chk_csp_gt
          cnt_csp_cr
      exact patchCsp_skip y ((countSub_pos_iff _ _ csp_ne).mp (by omega))
    · have hc' : containsSub cspNeedle x1 = false := by
        cases h2 : containsSub cspNeedle x1
        · rfl
        · exact absurd h2 hc
      cases hf : findHead x1 with
      | none =>
        have e2 : x2 = x1 := by rw [hx2]; exact patchCsp_id_of_none x1 hf
        have hfy : findHead y = none := by
          rw [hy, e2]; exact findHead_patchCordova_none x1 hf
        exact patchCsp_id_of_none y hfy
      | some pcr =>
        obtain ⟨p, cap, rest⟩ := pcr
        have hz : countSub cspNeedle x1 = 0 :=
          (countSub_eq_zero_iff _ _ csp_ne).mpr hc'
        have e2 : countSub cspNeedle x2 = 1 := by
          rw [hx2, countSub_patchCsp _ _ chk_csp_len chk_csp_head chk_csp_take chk_csp_gt,
            if_pos ⟨hc', by rw [hf]; rfl⟩, hz, cnt_csp_cspIns]
        have e3 : countSub cspNeedle y = countSub cspNeedle x2 := by
          rw [hy]
          exact countSub_patchCordova_inert _ _ (by decide) chk_csp_head chk_csp_sp chk_csp_gt
            cnt_csp_cr
        exact patchCsp_skip y ((countSub_pos_iff _ _ csp_ne).mp (by omega))
  have hC : patchCordova y = y := by
    by_cases hc : containsSub cordovaNeedle x2 = true
    · have e : y = x2 := by rw [hy]; exact patchCordova_skip x2 hc
      rw [e]
      exact hy.symm.trans e
    · have hc' : containsSub cordovaNeedle x2 = false := by
        cases h2 : containsSub cordovaNeedle x2
        · rfl
        · exact absurd h2 hc
      by_cases hb : containsSub bodyClose x2 = true
      · have e3 : countSub cordovaNeedle y = 1 := by
          rw [hy, countSub_patchCordova _ _ (by decide) chk_cdv_head chk_cdv_sp chk_cdv_gt,
            if_pos ⟨hc', hb⟩, (countSub_eq_zero_iff _ _ cdv_ne).mpr hc', cnt_cdv_cr]
        exact patchCordova_skip y ((countSub_pos_iff _ _ cdv_ne).mp (by omega))
      · have hb' : containsSub bodyClose x2 = false := by
          cases h2 : containsSub bodyClose x2
          · rfl
          · exact absurd h2 hb
        have e : y = x2 := by
          rw [hy]
          unfold patchCordova
          rw [if_neg (by simp [hc'])]
          exact replaceFirst_of_not_contains _ _ x2 hb'
        rw [e]
        exact hy.symm.trans e
  rw [hA, hB, hC]

/-- C4 counterexample: for H = "" (no head tag, no body tag) the output of
`prepareHtmlForCordova` equals the input and contains zero occurrences of the
viewport marker, the Content-Security-Policy marker and the cordova.js
marker — not exactly one of each, refuting the unconditional exactly-one part
of the claim (idempotence itself holds for every input, see the amended
theorem). -/
theorem prepareHtmlForCordova_empty_no_tags :
    prepareHtmlForCordova "" = "" ∧
    countSub viewportNeedle (prepareHtmlForCordova "").data = 0 ∧
    countSub cspNeedle (prepareHtmlForCordova "").data = 0 ∧
    countSub cordovaNeedle (prepareHtmlForCordova "").data = 0 := by
  decide

/-- C4 (amended): `prepareHtmlForCordova` is idempotent on every HTML string;
and whenever the input has a patchable `<head ...>` tag (case-insensitive,
with a closing `>`), contains `</body>`, and carries at most one pre-existing
occurrence of each marker substring ("viewport", "Content-Security-Policy",
"cordova.js"), the output contains exactly one occurrence of each marker. -/
theorem prepareHtmlForCordova_idempotent_and_unique_markers :
    (∀ H : String,
      prepareHtmlForCordova (prepareHtmlForCordova H) = prepareHtmlForCordova H) ∧
    (∀ H : String, (findHead H.data).isSome = true →
      containsSub bodyClose H.data = true →
      countSub viewportNeedle H.data ≤ 1 →
      countSub cspNeedle H.data ≤ 1 →
      countSub cordovaNeedle H.data ≤ 1 →
      countSub viewportNeedle (prepareHtmlForCordova H).data = 1 ∧
      countSub cspNeedle (prepareHtmlForCordova H).data = 1 ∧
      countSub cordovaNeedle (prepareHtmlForCordova H).data = 1) := by
  constructor
  · intro H
    exact congrArg List.asString (patchChain_idempotent H.data)
  · intro H hf hb h1 h2 h3
    show countSub viewportNeedle (patchCordova (patchCsp (patchViewport H.data))) = 1 ∧
      countSub cspNeedle (patchCordova (patchCsp (patchViewport H.data))) = 1 ∧
      countSub cordovaNeedle (patchCordova (patchCsp (patchViewport H.data))) = 1
    set x := H.data with hxdef
    set x1 := patchViewport x with hx1
    set x2 := patchCsp x1 with hx2
    set y := patchCordova x2 with hy
    have c1y : countSub viewportNeedle y = countSub viewportNeedle x2 := by
      rw [hy]
      exact countSub_patchCordova_inert _ _ (by decide) chk_vp_head chk_vp_sp chk_vp_gt
        cnt_vp_cr
    have c1x2 : countSub viewportNeedle x2 = countSub viewportNeedle x1 := by
      rw [hx2]
      exact countSub_patchCsp_inert _ _ chk_vp_len chk_vp_head chk_vp_take chk_vp_gt
        cnt_vp_cspIns
    have c1x1 : countSub viewportNeedle x1 = 1 := by
      by_cases hc : containsSub viewportNeedle x = true
      · have hpos := (countSub_pos_iff _ _ vp_ne).mpr hc
        rw [hx1, countSub_patchViewport _ _ chk_vp_len chk_vp_head chk_vp_take chk_vp_gt,
          if_neg (by simp [hc])]
        omega
      · have hc' : containsSub viewportNeedle x = false := by
          cases hcc : containsSub viewportNeedle x
          · rfl
          · exact absurd hcc hc
        have hz : countSub viewportNeedle x = 0 :=
          (countSub_eq_zero_iff _ _ vp_ne).mpr hc'
        rw [hx1, countSub_patchViewport _ _ chk_vp_len chk_vp_head chk_vp_take chk_vp_gt,
          if_pos ⟨hc', hf⟩, hz, cnt_vp_vpIns]
    have hf1 : (findHead x1).isSome = true := by
      rw [hx1]
      exact findHead_isSome_headPatch viewportNeedle viewportIns x hf
    have c2x1 : countSub cspNeedle x1 = countSub cspNeedle x := by
      rw [hx1]
      exact countSub_patchViewport_inert _ _ chk_csp_len chk_csp_head chk_csp_take
        chk_csp_gt cnt_csp_vpIns
    have c2y : countSub cspNeedle y = countSub cspNeedle x2 := by
      rw [hy]
      exact countSub_patchCordova_inert _ _ (by decide) chk_csp_head chk_csp_sp chk_csp_gt
        cnt_csp_cr
    have c2x2 : countSub cspNeedle x2 = 1 := by
      by_cases hc : containsSub cspNeedle x1 = true
      · have hpos := (countSub_pos_iff _ _ csp_ne).mpr hc
        rw [hx2, countSub_patchCsp _ _ chk_csp_len chk_csp_head chk_csp_take chk_csp_gt,
          if_neg (by simp [hc])]
        omega
      · have hc' : containsSub cspNeedle x1 = false := by
          cases hcc : containsSub cspNeedle x1
          · rfl
          · exact absurd hcc hc
        have hz : countSub cspNeedle x1 = 0 :=
          (countSub_eq_zero_iff _ _ csp_ne).mpr hc'
        rw [hx2, countSub_patchCsp _ _ chk_csp_len chk_csp_head chk_csp_take chk_csp_gt,
          if_pos ⟨hc', hf1⟩, hz, cnt_csp_cspIns]
    have c3x1 : countSub cordovaNeedle x1 = countSub cordovaNeedle x := by
      rw [hx1]
      exact countSub_patchViewport_inert _ _ chk_cdv_len chk_cdv_head chk_cdv_take
        chk_cdv_gt cnt_cdv_vpIns
    have c3x2 : countSub cordovaNeedle x2 = countSub cordovaNeedle x1 := by
      rw [hx2]
      exact countSub_patchCsp_inert _ _ chk_cdv_len chk_cdv_head chk_cdv_take chk_cdv_gt
        cnt_cdv_cspIns
    have cbx1 : countSub bodyClose x1 = countSub bodyClose x := by
      rw [hx1]
      exact countSub_patchViewport_inert _ _ chk_bc_len chk_bc_head chk_bc_take chk_bc_gt
        cnt_bc_vpIns
    have cbx2 : countSub bodyClose x2 = countSub bodyClose x1 := by
      rw [hx2]
      exact countSub_patchCsp_inert _ _ chk_bc_len chk_bc_head chk_bc_take chk_bc_gt
        cnt_bc_cspIns
    have hbx2 : containsSub bodyClose x2 = true := by
      have hpos : 0 < countSub bodyClose x := (countSub_pos_iff _ _ bc_ne).mpr hb
      exact (countSub_pos_iff _ _ bc_ne).mp (by omega)
    have c3y : countSub cordovaNeedle y = 1 := by
      by_cases hc : containsSub cordovaNeedle x2 = true
      · have hpos := (countSub_pos_iff _ _ cdv_ne).mpr hc
        rw [hy, countSub_patchCordova _ _ (by decide) chk_cdv_head chk_cdv_sp chk_cdv_gt,
          if_neg (by simp [hc])]
        omega
      · have hc' : containsSub cordovaNeedle x2 = false := by
          cases hcc : containsSub cordovaNeedle x2
          · rfl
          · exact absurd hcc hc
        have hz : countSub cordovaNeedle x2 = 0 :=
          (countSub_eq_zero_iff _ _ cdv_ne).mpr hc'
        rw [hy, countSub_patchCordova _ _ (by decide) chk_cdv_head chk_cdv_sp chk_cdv_gt,
          if_pos ⟨hc', hbx2⟩, hz, cnt_cdv_cr]
    exact ⟨by omega, by omega, c3y⟩

/-- C4 witness: a concrete page with a head tag and a body closing tag
satisfies the amended theorem's hypotheses, and the patched output carries
exactly one of each marker. -/
theorem prepareHtmlForCordova_unique_markers_witness :
    prepareHtmlForCordova
        (prepareHtmlForCordova "<html><head></head><body></body></html>") =
      prepareHtmlForCordova "<html><head></head><body></body></html>" ∧
    (countSub viewportNeedle
        (prepareHtmlForCordova "<html><head></head><body></body></html>").data = 1 ∧
      countSub cspNeedle
        (prepareHtmlForCordova "<html><head></head><body></body></html>").data = 1 ∧
      countSub cordovaNeedle
        (prepareHtmlForCordova "<html><head></head><body></body></html>").data = 1) :=
  ⟨prepareHtmlForCordova_idempotent_and_unique_markers.1 _,
   prepareHtmlForCordova_idempotent_and_unique_markers.2
     "<html><head></head><body></body></html>" (by decide) (by decide) (by decide)
     (by decide) (by decide)⟩

/-! ## C5 — offlineify trigger signatures -/

/-- C5 counterexample.  The literal text `canvas-confetti` triggers
`needsOfflineify`, yet it is not a CDN hostname, not a `text/babel` script
tag and not a Google Fonts `@import` — the claimed "if and only if" fails
in the only-if direction. -/
theorem needsOfflineify_claim_iff_fails :
    needsOfflineify "canvas-confetti" = true ∧
    declaredSignaturesClaimC5 "canvas-confetti" = false := by
  decide

/-- C5 (amended): `needsOfflineify` returns true iff the HTML contains,
case-insensitively, one of the four well-known CDN hostnames
(cdn.tailwindcss.com, unpkg.com, fonts.googleapis.com,
cdnjs.cloudflare.com), a Babel-in-browser signature (a `text/babel`
script type or the `@babel/standalone` bundle), or the `canvas-confetti`
library name. -/
theorem needsOfflineify_iff_amended (h : String) :
    needsOfflineify h = amendedSignaturesC5 h := by
  simp only [needsOfflineify, amendedSignaturesC5, cdnPatterns, List.any_cons,
    List.any_nil, Bool.or_false]
  generalize containsCI "cdn.tailwindcss.com" h.data = a
  generalize containsCI "unpkg.com" h.data = b
  generalize containsCI "fonts.googleapis.com" h.data = c
  generalize containsCI "@babel/standalone" h.data = d
  generalize containsCI "canvas-confetti" h.data = e
  generalize containsCI "cdnjs.cloudflare.com" h.data = f
  generalize containsCI "text/babel" h.data = g
  revert a b c d e f g
  decide

/-! ## C7 — zip admission appId fallback -/

/-- C7 counterexample.  A zip submission with the appId field omitted is
admitted with the fixed identifier `com.example.reactapp`, not with the
§4.2 derivation from the app name. -/
theorem zipRouteAppId_not_derived :
    zipRouteAppId none = "com.example.reactapp" ∧
    generateAppId "MyApp" = "com.vibecoding.myapp" ∧
    zipRouteAppId none ≠ generateAppId "MyApp" := by
  decide

/-- C7 (amended): when the appId form field is omitted or blank, a zip
submission is admitted with the fixed identifier `com.example.reactapp`;
the derivation from the app name applies to the HTML pipeline's builds
instead. -/
theorem zipRouteAppId_fixed_default (field : Option String) (appName : String)
    (h : parseFormAppId field = none) :
    zipRouteAppId field = "com.example.reactapp" ∧
    htmlBuildAppId field appName = generateAppId appName := by
  unfold zipRouteAppId htmlBuildAppId
  rw [h]
  exact ⟨rfl, rfl⟩

theorem zipRouteAppId_fixed_default_witness :
    zipRouteAppId (some "   ") = "com.example.reactapp" ∧
    htmlBuildAppId (some "   ") "My App" = generateAppId "My App" :=
  zipRouteAppId_fixed_default (some "   ") "My App" (by decide)

/-! ## C8 — progress heartbeat cap -/

/-- C8: on the install band `[25, 38)` actually used by the zip pipeline,
the heartbeat emits 12 synthetic ticks when the subcommand runs for 12
intervals — more than the 10-increment cap the claim (and the code's own
`Max 10 increments` comment) states.  The band containment and the
one-tick-per-interval pacing do hold. -/
theorem heartbeatTicks_install_band_exceeds_cap :
    (heartbeatTicks 25 38 12).length = 12 ∧
    10 < (heartbeatTicks 25 38 12).length ∧
    (∀ p ∈ heartbeatTicks 25 38 12, 25 ≤ p ∧ p < 38) ∧
    (∀ n : Nat, n ≤ 12 → (heartbeatTicks 25 38 n).length ≤ n) := by
  decide

/-! ## C6 — download filename suffix stripping -/

/-- C6: task identifiers are 12-character URL-safe tokens, whose alphabet
includes `-` and `_`, but the download route strips the `--<taskId>`
suffix only when the suffix matches `[a-zA-Z0-9]+`.  For the taskId
`abc_defghijk` the stored name survives verbatim into both forms of the
Content-Disposition header; an all-alphanumeric taskId is stripped as the
claim describes. -/
theorem downloadHandler_keeps_suffix_for_urlsafe_taskId :
    stripTaskIdSuffix "MyApp--abc_defghijk.apk".data = "MyApp--abc_defghijk.apk".data ∧
    stripTaskIdSuffix "MyApp--x7K9pQ2mN4aB.apk".data = "MyApp.apk".data ∧
    downloadHandler
      { status := "completed",
        result := some { success := true, apkPath := some "/builds/MyApp--abc_defghijk.apk" } }
      (fun _ => true)
      = .ok "application/vnd.android.package-archive"
          "attachment; filename=\"MyApp--abc_defghijk.apk\"; filename*=UTF-8''MyApp--abc_defghijk.apk"
          "/builds/MyApp--abc_defghijk.apk" := by
  decide

/-! ## C9 — progress percent monotonicity -/

/-- C9 counterexample.  The backend status route returns the worker-written
percent verbatim: polling an active job after the worker wrote percent 42
and again after a message-only progress write (stored as percent 0, since
the worker callback sends `percent ?? 0`) reports 42 and then 0 — the
second poll regresses, and the reported value is not the maximum of the
server-reported and last-observed percents. -/
theorem statusRoute_percent_regression :
    ((replyBody (statusHandler 2 (fun _ => 0) "t1"
        (getJobStatus
          (some { data := { taskId := "t1", buildType := "html", filePath := "/up/t1/a.html",
                            appName := "MyApp", outputDir := "/builds", createdAt := 0 },
                  state := .active,
                  progress := some { message := "Injecting app icon...", percent := 42 } })
          [] ⟨0, 1⟩ "t1"))).bind StatusBody.progress).map BuildJobProgress.percent
      = some 42 ∧
    ((replyBody (statusHandler 2 (fun _ => 0) "t1"
        (getJobStatus
          (some { data := { taskId := "t1", buildType := "html", filePath := "/up/t1/a.html",
                            appName := "MyApp", outputDir := "/builds", createdAt := 0 },
                  state := .active,
                  progress := some { message := "Injecting custom app icon...", percent := 0 } })
          [] ⟨0, 1⟩ "t1"))).bind StatusBody.progress).map BuildJobProgress.percent
      = some 0 ∧
    (0 : Int) < 42 := by
  decide

/-- C9 (amended): the backend status endpoint reports the worker-written
percent verbatim (it may regress); the clamping lives in the web client's
poll store, which sets its displayed progress to
`max 10 (max lastObserved serverReported)` while the job is active, so the
client-displayed progress never decreases across polls. -/
theorem storeNextProgress_monotone (current : Int) (s : Option Int)
    (updates : List (Option Int)) :
    storeNextProgress current s = max 10 (max current (s.getD 0)) ∧
    current ≤ storeNextProgress current s ∧
    current ≤ updates.foldl storeNextProgress current := by
  refine ⟨?_, ?_, ?_⟩
  · unfold storeNextProgress
    dsimp only
    rcases max_choice current (s.getD 0) with h | h <;>
      rcases max_choice 10 (max current (s.getD 0)) with h2 | h2 <;>
      have h3 := le_max_left current (s.getD 0) <;>
      have h4 := le_max_right current (s.getD 0) <;>
      have h5 := le_max_left (10 : Int) (max current (s.getD 0)) <;>
      have h6 := le_max_right (10 : Int) (max current (s.getD 0)) <;>
      split <;> omega
  · unfold storeNextProgress
    dsimp only
    have h3 := le_max_left current (s.getD 0)
    split <;> omega
  · induction updates generalizing current with
    | nil => exact le_refl current
    | cons u us ih =>
      refine le_trans ?_ (ih (storeNextProgress current u))
      unfold storeNextProgress
      dsimp only
      have h3 := le_max_left current (u.getD 0)
      split <;> omega

/-! ## C2 — failed-build status collapse -/

/-- C2 counterexample.  A completed job whose result is
`{success: false, error: ""}` is reported as `failed`, but the empty error
message is dropped by the JavaScript truthiness test
(`else if (jobStatus.result.error)`): the response carries no error field. -/
theorem statusHandler_drops_empty_error :
    ((replyBody (statusHandler 2 (fun _ => 0) "t1"
        (getJobStatus
          (some { data := { taskId := "t1", buildType := "zip", filePath := "/up/t1/a.zip",
                            appName := "MyApp", outputDir := "/builds", createdAt := 0 },
                  state := .completed,
                  returnvalue := some { success := false, error := some "" } })
          [] ⟨0, 0⟩ "t1"))).map StatusBody.status = some "failed") ∧
    ((replyBody (statusHandler 2 (fun _ => 0) "t1"
        (getJobStatus
          (some { data := { taskId := "t1", buildType := "zip", filePath := "/up/t1/a.zip",
                            appName := "MyApp", outputDir := "/builds", createdAt := 0 },
                  state := .completed,
                  returnvalue := some { success := false, error := some "" } })
          [] ⟨0, 0⟩ "t1"))).map StatusBody.error = some none) := by
  decide

/-- Evaluation of the status handler on a completed job whose build result
reports failure. -/
theorem statusHandler_eval_completed_failed (rh : Int) (sz : String → Int) (tid : String)
    (prog : Option BuildJobProgress) (ap err : Option String) (dur : Option Int)
    (ca : Option Int) (an : Option String) :
    statusHandler rh sz tid
      { status := "completed", progress := prog,
        result := some { success := false, apkPath := ap, error := err, duration := dur },
        createdAt := ca, appName := an } =
    .ok { taskId := tid, status := "failed",
          fileName := if jsTruthyStr an then an else none,
          expiresAt := ca.map (fun t => t + rh * 60 * 60 * 1000),
          retentionHours := rh, progress := prog,
          result := some (false, dur),
          error := if jsTruthyStr err then err else none } := by
  unfold statusHandler
  simp
  split <;> rfl

/-- C2 (amended): a completed job whose result has `success = false` is
reported with status `failed` (never `completed`), its result summary is
included, and the result's error message is placed in the response's
`error` field whenever it is non-empty (JavaScript truthiness drops an
empty message). -/
theorem statusHandler_failed_collapse (rh : Int) (sz : String → Int) (tid : String)
    (j : JobRecord) (w : List String) (st : QueueStats) (r : BuildJobResult)
    (hstate : j.state = .completed) (hres : j.returnvalue = some r)
    (hfail : r.success = false) :
    ∃ b, statusHandler rh sz tid (getJobStatus (some j) w st tid) = .ok b ∧
      b.status = "failed" ∧ b.status ≠ "completed" ∧
      b.result = some (false, r.duration) ∧
      (∀ e, r.error = some e → e ≠ "" → b.error = some e) := by
  obtain ⟨d, state, prog, rv, fr⟩ := j
  dsimp only at hstate hres
  subst hstate
  subst hres
  obtain ⟨success, apkPath, error, duration⟩ := r
  dsimp only at hfail
  subst hfail
  have hjs : getJobStatus
      (some { data := d, state := .completed, progress := prog,
              returnvalue := some { success := false, apkPath := apkPath,
                                    error := error, duration := duration },
              failedReason := fr }) w st tid =
      { status := "completed", progress := prog,
        result := some { success := false, apkPath := apkPath,
                         error := error, duration := duration },
        createdAt := some d.createdAt, appName := some d.appName } := rfl
  rw [hjs, statusHandler_eval_completed_failed]
  refine ⟨_, rfl, rfl, ?_, rfl, ?_⟩
  · show ("failed" : String) ≠ "completed"
    decide
  intro e he hne
  subst he
  have htr : jsTruthyStr (some e) = true := by
    obtain ⟨dl⟩ := e
    rcases dl with _ | ⟨c, cs⟩
    · exact absurd rfl hne
    · rfl
  simp [htr]

theorem statusHandler_failed_collapse_witness :
    ∃ b, statusHandler 2 (fun _ => 0) "t9"
        (getJobStatus
          (some { data := { taskId := "t9", buildType := "zip", filePath := "/up/t9/a.zip",
                            appName := "MyApp", outputDir := "/builds", createdAt := 0 },
                  state := .completed,
                  returnvalue := some { success := false, error := some "gradle exited 1" } })
          [] ⟨0, 0⟩ "t9") = .ok b ∧
      b.status = "failed" ∧ b.status ≠ "completed" ∧
      b.result = some (false, none) ∧
      (∀ e, (some "gradle exited 1" : Option String) = some e → e ≠ "" → b.error = some e) :=
  statusHandler_failed_collapse 2 (fun _ => 0) "t9" _ [] ⟨0, 0⟩
    { success := false, error := some "gradle exited 1" } rfl rfl rfl

/-! ## C10 — the status surface's visible state machine -/

theorem statusHandler_eval_active (rh : Int) (sz : String → Int) (tid : String)
    (prog : Option BuildJobProgress) (ca : Option Int) (an : Option String) :
    statusHandler rh sz tid
      { status := "active", progress := prog, createdAt := ca, appName := an } =
    .ok { taskId := tid, status := "active",
          fileName := if jsTruthyStr an then an else none,
          expiresAt := ca.map (fun t => t + rh * 60 * 60 * 1000),
          retentionHours := rh, progress := prog } := rfl

theorem statusHandler_eval_failed_state (rh : Int) (sz : String → Int) (tid : String)
    (prog : Option BuildJobProgress) (fr : Option String) (ca : Option Int)
    (an : Option String) :
    statusHandler rh sz tid
      { status := "failed", progress := prog, error := fr, createdAt := ca, appName := an } =
    .ok { taskId := tid, status := "failed",
          fileName := if jsTruthyStr an then an else none,
          expiresAt := ca.map (fun t => t + rh * 60 * 60 * 1000),
          retentionHours := rh, progress := prog, error := fr } := rfl

theorem statusHandler_eval_pending (rh : Int) (sz : String → Int) (tid : String)
    (ca : Option Int) (an : Option String) (qp qt : Option Nat) :
    statusHandler rh sz tid
      { status := "pending", createdAt := ca, appName := an,
        queuePosition := qp, queueTotal := qt } =
    .ok { taskId := tid, status := "pending",
          fileName := if jsTruthyStr an then an else none,
          expiresAt := ca.map (fun t => t + rh * 60 * 60 * 1000),
          retentionHours := rh, queuePosition := qp, queueTotal := qt } := rfl

theorem statusHandler_eval_completed_none (rh : Int) (sz : String → Int) (tid : String)
    (prog : Option BuildJobProgress) (ca : Option Int) (an : Option String) :
    statusHandler rh sz tid
      { status := "completed", progress := prog, result := none,
        createdAt := ca, appName := an } =
    .ok { taskId := tid, status := "completed",
          fileName := if jsTruthyStr an then an else none,
          expiresAt := ca.map (fun t => t + rh * 60 * 60 * 1000),
          retentionHours := rh, progress := prog } := rfl

theorem statusHandler_eval_completed_success (rh : Int) (sz : String → Int) (tid : String)
    (prog : Option BuildJobProgress) (ap err : Option String) (dur : Option Int)
    (ca : Option Int) (an : Option String) :
    statusHandler rh sz tid
      { status := "completed", progress := prog,
        result := some { success := true, apkPath := ap, error := err, duration := dur },
        createdAt := ca, appName := an } =
    .ok { taskId := tid, status := "completed",
          fileName := if jsTruthyStr an then an else none,
          expiresAt := ca.map (fun t => t + rh * 60 * 60 * 1000),
          retentionHours := rh, progress := prog,
          result := some (true, dur),
          downloadUrl := if jsTruthyStr ap then some ("/api/build/" ++ tid ++ "/download") else none,
          apkSize := if jsTruthyStr ap then some (sz (ap.getD "")) else none,
          error := if jsTruthyStr ap then none else if jsTruthyStr err then err else none } := by
  unfold statusHandler
  simp
  split
  · rfl
  · split <;> rfl

/-- C10: for an existing job the 200-body's status is always one of
pending, active, completed, failed; the backend states outside the spec's
state machine (`delayed`, `prioritized`, unrecognized) surface as
`pending` with `queuePosition ≥ 1`; a missing job yields a 404, never a
200 body carrying `not_found`. -/
theorem statusSurface_state_machine (rh : Int) (sz : String → Int) (tid : String)
    (j : JobRecord) (w : List String) (st : QueueStats) :
    (∃ b, statusHandler rh sz tid (getJobStatus (some j) w st tid) = .ok b ∧
      (b.status = "pending" ∨ b.status = "active" ∨
        b.status = "completed" ∨ b.status = "failed") ∧
      ((j.state = .delayed ∨ j.state = .prioritized ∨ (∃ s, j.state = .unknown s)) →
        b.status = "pending" ∧ ∃ q, b.queuePosition = some q ∧ 1 ≤ q)) ∧
    statusHandler rh sz tid (getJobStatus none w st tid) =
      .err 404 ("Task " ++ tid ++ " not found") := by
  obtain ⟨d, state, prog, rv, fr⟩ := j
  refine ⟨?_, rfl⟩
  have hq : ∀ p : Nat, (1 ≤ if p = 0 then 1 else p) := by
    intro p
    split <;> omega
  cases state with
  | waiting =>
    have hj : getJobStatus
        (some { data := d, state := .waiting, progress := prog, returnvalue := rv,
                failedReason := fr }) w st tid =
      { status := "pending", createdAt := some d.createdAt, appName := some d.appName,
        queuePosition := some (if getJobPosition w tid = 0 then 1 else getJobPosition w tid),
        queueTotal := some (st.waiting + st.active) } := rfl
    rw [hj, statusHandler_eval_pending]
    refine ⟨_, rfl, Or.inl rfl, fun _ => ⟨rfl, _, rfl, hq _⟩⟩
  | delayed =>
    have hj : getJobStatus
        (some { data := d, state := .delayed, progress := prog, returnvalue := rv,
                failedReason := fr }) w st tid =
      { status := "pending", createdAt := some d.createdAt, appName := some d.appName,
        queuePosition := some (if getJobPosition w tid = 0 then 1 else getJobPosition w tid),
        queueTotal := some (st.waiting + st.active) } := rfl
    rw [hj, statusHandler_eval_pending]
    refine ⟨_, rfl, Or.inl rfl, fun _ => ⟨rfl, _, rfl, hq _⟩⟩
  | prioritized =>
    have hj : getJobStatus
        (some { data := d, state := .prioritized, progress := prog, returnvalue := rv,
                failedReason := fr }) w st tid =
      { status := "pending", createdAt := some d.createdAt, appName := some d.appName,
        queuePosition := some (if getJobPosition w tid = 0 then 1 else getJobPosition w tid),
        queueTotal := some (st.waiting + st.active) } := rfl
    rw [hj, statusHandler_eval_pending]
    refine ⟨_, rfl, Or.inl rfl, fun _ => ⟨rfl, _, rfl, hq _⟩⟩
  | unknown s =>
    have hj : getJobStatus
        (some { data := d, state := .unknown s, progress := prog, returnvalue := rv,
                failedReason := fr }) w st tid =
      { status := "pending", createdAt := some d.createdAt, appName := some d.appName,
        queuePosition := some 1,
        queueTotal := some (st.waiting + st.active) } := rfl
    rw [hj, statusHandler_eval_pending]
    exact ⟨_, rfl, Or.inl rfl, fun _ => ⟨rfl, 1, rfl, le_refl 1⟩⟩
  | active =>
    have hj : getJobStatus
        (some { data := d, state := .active, progress := prog, returnvalue := rv,
                failedReason := fr }) w st tid =
      { status := "active", progress := prog, createdAt := some d.createdAt,
        appName := some d.appName } := rfl
    rw [hj, statusHandler_eval_active]
    refine ⟨_, rfl, Or.inr (Or.inl rfl), ?_⟩
    rintro (h | h | ⟨s, h⟩) <;> exact BullState.noConfusion h
  | failed =>
    have hj : getJobStatus
        (some { data := d, state := .failed, progress := prog, returnvalue := rv,
                failedReason := fr }) w st tid =
      { status := "failed", progress := prog, error := fr, createdAt := some d.createdAt,
        appName := some d.appName } := rfl
    rw [hj, statusHandler_eval_failed_state]
    refine ⟨_, rfl, Or.inr (Or.inr (Or.inr rfl)), ?_⟩
    rintro (h | h | ⟨s, h⟩) <;> exact BullState.noConfusion h
  | completed =>
    have hvac : ∀ b : StatusBody,
        (BullState.completed = .delayed ∨ BullState.completed = .prioritized ∨
          (∃ s, BullState.completed = .unknown s)) →
        b.status = "pending" ∧ ∃ q, b.queuePosition = some q ∧ 1 ≤ q := by
      rintro b (h | h | ⟨s, h⟩) <;> exact BullState.noConfusion h
    rcases rv with _ | ⟨⟨succ, ap, err, dur⟩⟩
    · have hj : getJobStatus
          (some { data := d, state := .completed, progress := prog, returnvalue := none,
                  failedReason := fr }) w st tid =
        { status := "completed", progress := prog, result := none,
          createdAt := some d.createdAt, appName := some d.appName } := rfl
      rw [hj, statusHandler_eval_completed_none]
      exact ⟨_, rfl, Or.inr (Or.inr (Or.inl rfl)), hvac _⟩
    · cases succ
      · have hj : getJobStatus
            (some { data := d, state := .completed, progress := prog,
                    returnvalue := some { success := false, apkPath := ap, error := err,
                                          duration := dur },
                    failedReason := fr }) w st tid =
          { status := "completed", progress := prog,
            result := some { success := false, apkPath := ap, error := err, duration := dur },
            createdAt := some d.createdAt, appName := some d.appName } := rfl
        rw [hj, statusHandler_eval_completed_failed]
        exact ⟨_, rfl, Or.inr (Or.inr (Or.inr rfl)), hvac _⟩
      · have hj : getJobStatus
            (some { data := d, state := .completed, progress := prog,
                    returnvalue := some { success := true, apkPath := ap, error := err,
                                          duration := dur },
                    failedReason := fr }) w st tid =
          { status := "completed", progress := prog,
            result := some { success := true, apkPath := ap, error := err, duration := dur },
            createdAt := some d.createdAt, appName := some d.appName } := rfl
        rw [hj, statusHandler_eval_completed_success]
        exact ⟨_, rfl, Or.inr (Or.inr (Or.inl rfl)), hvac _⟩

theorem statusSurface_state_machine_witness :
    (∃ b, statusHandler 2 (fun _ => 0) "t3"
        (getJobStatus
          (some { data := { taskId := "t3", buildType := "html", filePath := "/up/t3/a.html",
                            appName := "MyApp", outputDir := "/builds", createdAt := 0 },
                  state := .delayed }) ["x", "y"] ⟨2, 1⟩ "t3") = .ok b ∧
      (b.status = "pending" ∨ b.status = "active" ∨
        b.status = "completed" ∨ b.status = "failed") ∧
      ((BullState.delayed = .delayed ∨ BullState.delayed = .prioritized ∨
          (∃ s, BullState.delayed = .unknown s)) →
        b.status = "pending" ∧ ∃ q, b.queuePosition = some q ∧ 1 ≤ q)) ∧
    statusHandler 2 (fun _ => 0) "t3" (getJobStatus none ["x", "y"] ⟨2, 1⟩ "t3") =
      .err 404 ("Task " ++ "t3" ++ " not found") :=
  statusSurface_state_machine 2 (fun _ => 0) "t3"
    { data := { taskId := "t3", buildType := "html", filePath := "/up/t3/a.html",
                appName := "MyApp", outputDir := "/builds", createdAt := 0 },
      state := .delayed } ["x", "y"] ⟨2, 1⟩

/-! ## C3 — delete/cleanup contract -/

theorem mem_removeDirTree {dir : List String} {fs : List (List String)}
    {p : List String} : p ∈ removeDirTree dir fs ↔ p ∈ fs ∧ ¬ dir <+: p := by
  simp only [removeDirTree, List.mem_filter, Bool.not_eq_true']
  rw [← List.isPrefixOf_iff_prefix (α := String)]
  simp [Bool.eq_false_iff]

/-- C3 counterexample.  Deleting a completed HTML build removes the
uploads subdirectory and the build workspace directory
`<builds>/<appName>`, but the artifact file `<builds>/<appName>.apk`
survives the DELETE — the claim's "cleans up ... the build artifact file"
fails on this job. -/
theorem deleteHandler_leaves_artifact :
    deleteHandler
      (some { data := { taskId := "t1", buildType := "html", filePath := "/up/t1/a.html",
                        appName := "MyApp", outputDir := "/builds", createdAt := 0 },
              state := .completed })
      ["uploads"] ["builds"]
      [["uploads", "t1", "a.html"], ["builds", "MyApp"],
       ["builds", "MyApp", "www", "index.html"], ["builds", "MyApp.apk"]]
    = (.ok "Task t1 has been deleted", none, [["builds", "MyApp.apk"]]) := by
  decide

/-- C3 (amended): DELETE on an active job returns 400 and leaves both the
job and the filesystem unchanged; DELETE on a job in any other state
removes it from the queue and prunes the per-task uploads subdirectory
`<uploads>/<taskId>` and the build workspace directory
`<builds>/<appName>` — and nothing else.  (The artifact `.apk` file is not
named by either prefix, so it is left for the retention sweeper.)  DELETE
on a missing job is a 404. -/
theorem deleteHandler_contract (j : JobRecord) (up bd : List String)
    (fs : List (List String)) :
    (j.state = .active →
      deleteHandler (some j) up bd fs =
        (.err 400 "Cannot cancel a task that is currently building. Please wait for it to complete.",
          some j, fs)) ∧
    (j.state ≠ .active →
      ∃ fs', deleteHandler (some j) up bd fs =
          (.ok ("Task " ++ j.data.taskId ++ " has been deleted"), none, fs') ∧
        (∀ p ∈ fs', ¬ (up ++ [j.data.taskId]) <+: p ∧ ¬ (bd ++ [j.data.appName]) <+: p) ∧
        (∀ p ∈ fs', p ∈ fs) ∧
        (∀ p ∈ fs, ¬ (up ++ [j.data.taskId]) <+: p → ¬ (bd ++ [j.data.appName]) <+: p →
          p ∈ fs')) ∧
    deleteHandler none up bd fs = (.err 404 "Task not found", none, fs) := by
  refine ⟨?_, ?_, rfl⟩
  · intro h
    simp [deleteHandler, h]
  · intro h
    refine ⟨cleanupTask up bd j.data.taskId j.data.appName fs, ?_, ?_, ?_, ?_⟩
    · simp [deleteHandler, removeJob, h]
    · intro p hp
      rw [cleanupTask, mem_removeDirTree, mem_removeDirTree] at hp
      exact ⟨hp.1.2, hp.2⟩
    · intro p hp
      rw [cleanupTask, mem_removeDirTree, mem_removeDirTree] at hp
      exact hp.1.1
    · intro p hp hu hb
      rw [cleanupTask, mem_removeDirTree, mem_removeDirTree]
      exact ⟨⟨hp, hu⟩, hb⟩

theorem deleteHandler_contract_witness :
    (BullState.active = .active →
      deleteHandler
        (some { data := { taskId := "t2", buildType := "zip", filePath := "/up/t2/a.zip",
                          appName := "Dup", outputDir := "/builds", createdAt := 0 },
                state := .active })
        ["uploads"] ["builds"] [["uploads", "t2", "a.zip"]] =
        (.err 400 "Cannot cancel a task that is currently building. Please wait for it to complete.",
          some { data := { taskId := "t2", buildType := "zip", filePath := "/up/t2/a.zip",
                           appName := "Dup", outputDir := "/builds", createdAt := 0 },
                 state := .active }, [["uploads", "t2", "a.zip"]])) ∧
    (BullState.active ≠ .active →
      ∃ fs', deleteHandler
          (some { data := { taskId := "t2", buildType := "zip", filePath := "/up/t2/a.zip",
                            appName := "Dup", outputDir := "/builds", createdAt := 0 },
                  state := .active })
          ["uploads"] ["builds"] [["uploads", "t2", "a.zip"]] =
          (.ok ("Task " ++ "t2" ++ " has been deleted"), none, fs') ∧
        (∀ p ∈ fs', ¬ (["uploads"] ++ ["t2"]) <+: p ∧ ¬ (["builds"] ++ ["Dup"]) <+: p) ∧
        (∀ p ∈ fs', p ∈ [["uploads", "t2", "a.zip"]]) ∧
        (∀ p ∈ [["uploads", "t2", "a.zip"]], ¬ (["uploads"] ++ ["t2"]) <+: p →
          ¬ (["builds"] ++ ["Dup"]) <+: p → p ∈ fs')) ∧
    deleteHandler none ["uploads"] ["builds"] [["uploads", "t2", "a.zip"]] =
      (.err 404 "Task not found", none, [["uploads", "t2", "a.zip"]]) :=
  deleteHandler_contract
    { data := { taskId := "t2", buildType := "zip", filePath := "/up/t2/a.zip",
                appName := "Dup", outputDir := "/builds", createdAt := 0 },
      state := .active }
    ["uploads"] ["builds"] [["uploads", "t2", "a.zip"]]

/-! ## C1 — app identifier derivation -/

theorem collapseDots_subset (l : List Char) : ∀ c ∈ collapseDots l, c ∈ l := by
  induction l with
  | nil => simp [collapseDots]
  | cons a rest ih =>
    cases rest with
    | nil => simp [collapseDots]
    | cons b rest2 =>
      intro c hc
      unfold collapseDots at hc
      split at hc
      · exact List.mem_cons_of_mem a (ih c hc)
      · rcases List.mem_cons.mp hc with h | h
        · exact h ▸ List.mem_cons_self a _
        · exact List.mem_cons_of_mem a (ih c h)

theorem stripDots_subset (l : List Char) : ∀ c ∈ stripDots l, c ∈ l := by
  intro c hc
  unfold stripDots at hc
  rw [List.mem_reverse] at hc
  have h1 := (List.dropWhile_suffix (l := (l.dropWhile (· = '.')).reverse)
    (p := (· = '.'))).subset hc
  rw [List.mem_reverse] at h1
  exact (List.dropWhile_suffix (p := (· = '.'))).subset h1

theorem splitDots_ne_nil (l : List Char) : splitDots l ≠ [] := by
  cases l with
  | nil => simp [splitDots]
  | cons a rest =>
    unfold splitDots
    rcases splitDots rest with _ | ⟨p0, ps⟩
    · simp
    · dsimp only
      split <;> simp

theorem splitDots_mem (l : List Char) :
    ∀ p ∈ splitDots l, ∀ c ∈ p, c ∈ l ∧ c ≠ '.' := by
  induction l with
  | nil =>
    intro p hp c hc
    simp [splitDots] at hp
    subst hp
    cases hc
  | cons a rest ih =>
    intro p hp c hc
    unfold splitDots at hp
    rcases hsp : splitDots rest with _ | ⟨p0, ps⟩
    · exact absurd hsp (splitDots_ne_nil rest)
    · rw [hsp] at hp
      dsimp only at hp
      by_cases ha : a = '.'
      · rw [if_pos ha] at hp
        rcases List.mem_cons.mp hp with h | h
        · subst h; cases hc
        · have := ih p (hsp ▸ h) c hc
          exact ⟨List.mem_cons_of_mem a this.1, this.2⟩
      · rw [if_neg ha] at hp
        rcases List.mem_cons.mp hp with h | h
        · subst h
          rcases List.mem_cons.mp hc with h2 | h2
          · subst h2
            exact ⟨List.mem_cons_self c rest, ha⟩
          · have := ih p0 (hsp ▸ List.mem_cons_self p0 ps) c h2
            exact ⟨List.mem_cons_of_mem a this.1, this.2⟩
        · have := ih p (hsp ▸ List.mem_cons_of_mem p0 h) c hc
          exact ⟨List.mem_cons_of_mem a this.1, this.2⟩

theorem digitChar_isLower09 : ∀ m : Nat, m < 10 → isLower09 (Nat.digitChar m) = true := by
  decide

theorem toDigitsCore_isLower09 :
    ∀ (fuel n : Nat) (ds : List Char), (∀ c ∈ ds, isLower09 c = true) →
      ∀ c ∈ Nat.toDigitsCore 10 fuel n ds, isLower09 c = true := by
  intro fuel
  induction fuel with
  | zero =>
    intro n ds hds c hc
    rw [Nat.toDigitsCore] at hc
    exact hds c hc
  | succ f ih =>
    intro n ds hds c hc
    rw [Nat.toDigitsCore] at hc
    have hd : ∀ c' ∈ Nat.digitChar (n % 10) :: ds, isLower09 c' = true := by
      intro c' hc'
      rcases List.mem_cons.mp hc' with h | h
      · exact h ▸ digitChar_isLower09 (n % 10) (Nat.mod_lt n (by omega))
      · exact hds c' h
    split at hc
    · exact hd c hc
    · exact ih (n / 10) _ hd c hc

theorem repr_all_isLower09 (n : Nat) : ∀ c ∈ (Nat.repr n).data, isLower09 c = true := by
  intro c hc
  have h : (Nat.repr n).data = Nat.toDigitsCore 10 (n + 1) n [] := rfl
  rw [h] at hc
  exact toDigitsCore_isLower09 (n + 1) n [] (by simp) c hc

theorem fixPart_segOk (idx : Nat) (p : List Char)
    (hp : ∀ c ∈ p, isLower09 c = true) : appIdSegOk (fixPart idx p) = true := by
  cases p with
  | nil =>
    show appIdSegOk ('a' :: 'p' :: 'p' :: (Nat.repr idx).data) = true
    unfold appIdSegOk
    rw [Bool.and_eq_true, List.all_cons, List.all_cons, Bool.and_eq_true, Bool.and_eq_true]
    refine ⟨rfl, rfl, rfl, ?_⟩
    rw [List.all_eq_true]
    exact repr_all_isLower09 idx
  | cons c cs =>
    by_cases h : isLowerAlpha c = true
    · rw [show fixPart idx (c :: cs) = c :: cs by rw [fixPart, if_pos h]]
      unfold appIdSegOk
      rw [Bool.and_eq_true, List.all_eq_true]
      exact ⟨h, fun x hx => hp x (List.mem_cons_of_mem c hx)⟩
    · rw [show fixPart idx (c :: cs) = 'a' :: c :: cs by rw [fixPart, if_neg h]]
      unfold appIdSegOk
      rw [Bool.and_eq_true, List.all_eq_true]
      exact ⟨rfl, fun x hx => hp x hx⟩

theorem fixParts_segOk :
    ∀ (parts : List (List Char)) (idx : Nat),
      (∀ p ∈ parts, ∀ c ∈ p, isLower09 c = true) →
      ∀ q ∈ fixParts idx parts, appIdSegOk q = true := by
  intro parts
  induction parts with
  | nil => intro idx _ q hq; cases hq
  | cons p ps ih =>
    intro idx hparts q hq
    unfold fixParts at hq
    rcases List.mem_cons.mp hq with h | h
    · exact h ▸ fixPart_segOk idx p (hparts p (List.mem_cons_self p ps))
    · exact ih (idx + 1) (fun r hr => hparts r (List.mem_cons_of_mem p hr)) q h

theorem fixParts_ne_nil (idx : Nat) (parts : List (List Char)) (h : parts ≠ []) :
    fixParts idx parts ≠ [] := by
  cases parts with
  | nil => exact absurd rfl h
  | cons p ps => simp [fixParts]

theorem segOk_no_dot (q : List Char) (h : appIdSegOk q = true) : '.' ∉ q := by
  cases q with
  | nil => simp
  | cons c cs =>
    unfold appIdSegOk at h
    rw [Bool.and_eq_true, List.all_eq_true] at h
    intro hc
    rcases List.mem_cons.mp hc with h2 | h2
    · rw [← h2] at h
      exact absurd h.1 (by decide)
    · exact absurd (h.2 '.' h2) (by decide)

theorem splitDots_single (q : List Char) (hq : '.' ∉ q) : splitDots q = [q] := by
  induction q with
  | nil => rfl
  | cons c cs ih =>
    have hc : c ≠ '.' := fun h => hq (h ▸ List.mem_cons_self c cs)
    have hcs : '.' ∉ cs := fun h => hq (List.mem_cons_of_mem c h)
    unfold splitDots
    rw [ih hcs]
    simp [hc]

theorem splitDots_append_dot (q rest : List Char) (hq : '.' ∉ q) :
    splitDots (q ++ '.' :: rest) = q :: splitDots rest := by
  induction q with
  | nil =>
    show splitDots ('.' :: rest) = [] :: splitDots rest
    rcases hsp : splitDots rest with _ | ⟨p0, ps⟩
    · exact absurd hsp (splitDots_ne_nil rest)
    · conv_lhs => rw [splitDots]
      rw [hsp]
      simp
  | cons c cs ih =>
    have hc : c ≠ '.' := fun h => hq (h ▸ List.mem_cons_self c cs)
    have hcs : '.' ∉ cs := fun h => hq (List.mem_cons_of_mem c h)
    show splitDots (c :: (cs ++ '.' :: rest)) = (c :: cs) :: splitDots rest
    conv_lhs => rw [splitDots]
    rw [ih hcs]
    simp [hc]

theorem splitDots_joinDots :
    ∀ parts : List (List Char), parts ≠ [] → (∀ q ∈ parts, '.' ∉ q) →
      splitDots (joinDots parts) = parts := by
  intro parts
  induction parts with
  | nil => intro h; exact absurd rfl h
  | cons q ps ih =>
    intro _ hdot
    cases ps with
    | nil =>
      show splitDots (joinDots [q]) = [q]
      exact splitDots_single q (hdot q (List.mem_cons_self q []))
    | cons q2 rest =>
      show splitDots (q ++ '.' :: joinDots (q2 :: rest)) = q :: q2 :: rest
      rw [splitDots_append_dot q _ (hdot q (List.mem_cons_self q _)),
        ih (by simp) (fun r hr => hdot r (List.mem_cons_of_mem q hr))]

/-- C1: `generateAppId` always produces a string matching
`^com\.vibecoding\.[a-z][a-z0-9]*(\.[a-z][a-z0-9]*)*$`, and the four
derivation examples hold. -/
theorem generateAppId_valid_shape :
    (∀ s : String, matchesAppIdShape (generateAppId s) = true) ∧
    generateAppId "123App" = "com.vibecoding.a123app" ∧
    generateAppId "我的应用" = "com.vibecoding.app" ∧
    generateAppId "" = "com.vibecoding.app" ∧
    generateAppId "My---App___Test" = "com.vibecoding.my.app.test" := by
  refine ⟨?_, by decide, by decide, by decide, by decide⟩
  intro s
  unfold generateAppId
  set sanitized0 := stripDots (collapseDots (dotify (s.data.map Char.toLower)))
    with hs0
  set sanitized := if sanitized0.isEmpty then "app".data else sanitized0 with hsan
  have hchars : ∀ c ∈ sanitized, isLower09 c = true ∨ c = '.' := by
    intro c hc
    rw [hsan] at hc
    split at hc
    · left
      revert hc
      revert c
      decide
    · have h1 := stripDots_subset _ c hc
      have h2 := collapseDots_subset _ c h1
      unfold dotify at h2
      rcases List.mem_map.mp h2 with ⟨a, _, ha⟩
      by_cases hla : isLower09 a = true
      · rw [if_pos hla] at ha
        exact Or.inl (ha ▸ hla)
      · rw [if_neg hla] at ha
        exact Or.inr ha.symm
  set parts := splitDots sanitized with hparts
  have hpchars : ∀ p ∈ parts, ∀ c ∈ p, isLower09 c = true := by
    intro p hp c hc
    have := splitDots_mem sanitized p (hparts ▸ hp) c hc
    rcases hchars c this.1 with h | h
    · exact h
    · exact absurd h this.2
  have hsegs := fixParts_segOk parts 0 hpchars
  have hne : fixParts 0 parts ≠ [] :=
    fixParts_ne_nil 0 parts (hparts ▸ splitDots_ne_nil sanitized)
  have hnodot : ∀ q ∈ fixParts 0 parts, '.' ∉ q :=
    fun q hq => segOk_no_dot q (hsegs q hq)
  unfold matchesAppIdShape
  rw [Bool.and_eq_true]
  constructor
  · rw [String.data_append]
    have : ((joinDots (fixParts 0 parts)).asString).data = joinDots (fixParts 0 parts) := rfl
    rw [this, List.take_left, beq_iff_eq]
  · rw [String.data_append]
    have : ((joinDots (fixParts 0 parts)).asString).data = joinDots (fixParts 0 parts) := rfl
    rw [this, List.drop_left, splitDots_joinDots _ hne hnodot, List.all_eq_true]
    exact hsegs

end Demo2Apk
